import Mathlib

/-!
Verification of the pipeline core of `app.py` (Viral Shorts Title Generator).

The source is a Streamlit script.  Each user interaction triggers a rerun of
the whole script from top to bottom; persistent data lives in
`st.session_state`.  We embed the session state as `AppState`, and one rerun
(triggered by one interaction) as the function `step`.  A rerun consists of the
event handler that fired (transcript-input change at lines 351-357, the
"Analyze Tones" button at lines 360-373, the tone radio at lines 376-383, the
"Generate" button at lines 385-418) followed by the tail of the script; the
only part of the tail that writes session state is line 379, which reassigns
`selected_tone` from the radio widget whenever `generated_tones` is nonempty.

String-processing helpers (`parse_srt`, `parse_json_from_response`, the prompt
builders) are embedded as executable functions over `List Char` / `String`,
mirroring the Python code including its regex semantics.  Python `re` scanning
(leftmost match, greedy/lazy backtracking) is implemented directly by
deterministic scanners; the relevant character classes are modelled as
follows: `\d` is restricted to the ASCII digits (Python additionally accepts
other Unicode decimal digits; every input considered in the theorems below is
ASCII, where the two agree), and `\s` / `str.strip` use the Python string
whitespace set.
-/

namespace ViralShorts

/-! ## Python string primitives -/

/-- Characters treated as whitespace by Python `str.strip`, `str.isspace` and
by `\s` in `re` patterns over `str`. -/
def isPySpace (c : Char) : Bool :=
  c = ' ' || c = '\t' || c = '\n' || c = '\r' || c = '\x0b' || c = '\x0c' ||
  c = '\x1c' || c = '\x1d' || c = '\x1e' || c = '\x1f' || c = '\x85' ||
  c = '\xa0' || c = ' ' ||
  (0x2000 ≤ c.toNat && c.toNat ≤ 0x200a) ||
  c = ' ' || c = ' ' || c = ' ' || c = ' ' || c = '　'

/-- Drop leading Python whitespace (the left half of `str.strip`). -/
def dropWs : List Char → List Char
  | [] => []
  | c :: cs => if isPySpace c then dropWs cs else c :: cs

/-- Python `str.strip()` on a character list: drop whitespace at both ends. -/
def pyStripL (cs : List Char) : List Char :=
  (dropWs ((dropWs cs.reverse).reverse))

/-- Python `str.strip()`. -/
def pyStrip (s : String) : String :=
  String.mk (pyStripL s.data)

/-- Python truthiness of a string: nonempty. -/
def pyTruthy (s : String) : Bool := s ≠ ""

/-- Python truthiness of an `Optional[str]` (`None` and `""` are falsy). -/
def pyTruthyOpt : Option String → Bool
  | none => false
  | some s => pyTruthy s

/-! ## The session state (lines 307-317 of `app.py`) -/

/-- The five `st.session_state` slots initialised at lines 307-317. -/
structure AppState where
  transcript_input : String
  generated_tones : List String
  selected_tone : Option String
  last_result_md : String
  last_run_time : String
  deriving Repr, DecidableEq

/-- The initial session state (lines 307-317): everything empty / unset. -/
def initState : AppState :=
  { transcript_input := ""
    generated_tones := []
    selected_tone := none
    last_result_md := ""
    last_run_time := "" }

/-- One user interaction, each triggering one Streamlit rerun.

* `setTranscript doc` : the transcript input widget now holds `doc`
  (pasted text / uploaded file contents), lines 329-357.
* `analyzeTones r` : click on "Analyze Tones" (lines 363-373); `r = some ts`
  means the generation call succeeded and `parse_json_from_response` produced
  the tone list `ts` (`[]` for a malformed completion); `r = none` means the
  call raised and the `except` branch at line 372 ran.
* `selectTone t` : the operator picks option `t` in the step-3 radio
  (line 379); the widget only offers members of `generated_tones`.
* `generate hdr ttl now` : click on "Generate Titles & Headlines"
  (lines 388-418); `hdr` / `ttl` are the header and title completions
  (`none` = that `generate_content` call raised), `now` is the formatted
  current time stored at line 415. -/
inductive Event where
  | setTranscript (doc : String)
  | analyzeTones (r : Option (List String))
  | selectTone (t : String)
  | generate (hdr ttl : Option String) (now : String)
  deriving Repr, DecidableEq

/-- The combined result document built at lines 409-412. -/
def combineResults (tone hdr ttl : String) : String :=
  "## Results for Tone: *" ++ tone ++ "*\n\n" ++ pyStrip hdr ++ "\n\n" ++
  "## Titles (under 10 words)\n\n" ++ pyStrip ttl

/-- Effect of the event handler that fired during a rerun.

* transcript change (lines 351-357): only a truthy (nonempty) input that
  differs from the stored one is written back, and only then are the
  downstream slots cleared;
* "Analyze Tones" (lines 363-373): requires the step-2 section to be rendered
  (nonempty transcript, line 361); on success stores the parsed tones, on an
  exception changes nothing;
* tone radio (line 379): stores the picked member of `generated_tones`
  (the widget exists only when the list is nonempty, line 377);
* "Generate" (lines 388-418): requires a truthy `selected_tone` (line 386);
  the result and timestamp are written (lines 414-415) only after both
  generation calls returned, so if either raises nothing is written. -/
def applyEvent (s : AppState) (e : Event) : AppState :=
  match e with
  | .setTranscript doc =>
      if pyTruthy doc ∧ s.transcript_input ≠ doc then
        { s with transcript_input := doc
                 generated_tones := []
                 selected_tone := none
                 last_result_md := "" }
      else s
  | .analyzeTones r =>
      if pyTruthy s.transcript_input then
        match r with
        | some ts => { s with generated_tones := ts }
        | none => s
      else s
  | .selectTone t =>
      if s.generated_tones ≠ [] ∧ t ∈ s.generated_tones then
        { s with selected_tone := some t }
      else s
  | .generate hdr ttl now =>
      if pyTruthyOpt s.selected_tone then
        match hdr with
        | none => s
        | some h =>
          match ttl with
          | none => s
          | some t =>
            { s with
              last_result_md :=
                combineResults (s.selected_tone.getD "") h t
              last_run_time := now }
      else s

/-- Value produced by the step-3 `st.radio` during a rerun, given its options
and the previous selection.  The widget keeps its previous value when that
value is still among the options and defaults to the first option otherwise.
(Streamlit also resets to the first option when the options list changes as a
whole; both behaviours return a member of `options`, and no property below
distinguishes them.) -/
def radioValue (options : List String) (prev : Option String) : Option String :=
  match prev with
  | some p => if p ∈ options then some p else options.head?
  | none => options.head?

/-- The tail of the script that runs after the event handler in the same
rerun: line 379 reassigns `selected_tone` whenever `generated_tones` is
nonempty (line 377); with an empty tone list the radio is never rendered and
`selected_tone` keeps its stale value. -/
def renderTail (s : AppState) : AppState :=
  if s.generated_tones ≠ [] then
    { s with selected_tone := radioValue s.generated_tones s.selected_tone }
  else s

/-- One full Streamlit rerun triggered by event `e`. -/
def step (s : AppState) (e : Event) : AppState :=
  renderTail (applyEvent s e)

/-- State after a sequence of interactions starting from the initial state. -/
def run (es : List Event) : AppState :=
  es.foldl step initState

/-- The four pipeline stages of the specification, derived from the session
state the way the script gates its sections (lines 361, 377, 386, 421). -/
inductive Stage where
  | input | tonesReady | toneSelected | resultsReady
  deriving Repr, DecidableEq

/-- Stage derived from a session state. -/
def stageOf (s : AppState) : Stage :=
  if pyTruthy s.last_result_md then .resultsReady
  else if pyTruthyOpt s.selected_tone then .toneSelected
  else if s.generated_tones ≠ [] then .tonesReady
  else .input

/-! ## The prompt builders (lines 119-235 of `app.py`) -/

/-- The prompt for generating headers (`get_header_prompt`, lines 119-195).
The Python function takes a `header_count` parameter (fed from the
"Headers to generate" slider at line 284 and passed through at line 395), but
the f-string it returns never interpolates it: the output-format section
hardcodes "Generate 10 responses." -/
def get_header_prompt (transcript_text chosen_tone : String)
    (header_count : Nat) (custom_angle : String) : String :=
  let angle_block : String :=
    if pyTruthy custom_angle ∧ pyTruthy (pyStrip custom_angle) then
      "\n" ++
      "# [CUSTOM ANGLE — STRICT]\n" ++
      "All generated outputs MUST align with this angle/domain:\n" ++
      "\"\"\"" ++
      pyStrip custom_angle ++
      "\"\"\"\n" ++
      "Stay tightly on-theme.\n"
    else ""
  "\n" ++
    "[ROLE & EXPERTISE]\n" ++
    "You are a specialized \"Infotainment & Business\" Content Strategist for the Indian market. You are an expert at decoding complex topics (Finance, Health, Infrastructure, Scams) into 3-second viral hooks. You excel at connecting high-level data to the viewer\x27s **daily life, habits, and struggles.**\n" ++
    "\n" ++
    "[PRIMARY TASK]\n" ++
    "Analyze the provided transcript and generate a list of viral Headers for on-screen text and thumbnails.\n" ++
    "\n" ++
    "[INPUT TRANSCRIPT]\n" ++
    transcript_text ++
    "\n" ++
    "\n" ++
    "[GENERATION GUIDELINES & CONSTRAINTS]\n" ++
    "PRIMARY TONE & STYLE\n" ++
    "Chosen Tone: " ++
    chosen_tone ++
    "\n" ++
    "\n" ++
    "Instruction: All generated headers MUST strictly adhere to the Chosen Tone. Use one of the following options:\n" ++
    "\n" ++
    "1. The Relatable Reality Check: Question a daily habit or deep-seated belief. (e.g., \"Is Roti Healthy?\", \"Why You Feel Tired\").\n" ++
    "2. The Expose (Investigative): Frame it as a scam, a trap, or a lie being revealed. (Keywords: Scam, Trap, Fake, Reality).\n" ++
    "3. The Comparative (Vs Battle): Direct comparison between two rivals or cities. (Style: X vs Y).\n" ++
    "4. The \"Zero to Hero\" (Numbers): Focus on insane growth, huge drops, or money hacks. (Use ₹, CR, %).\n" ++
    "5. The Cautionary (Warning): Warn the audience about a mistake they are making right now.\n" ++
    "\n" ++
    angle_block ++
    "\n" ++
    "\n" ++
    "GUIDING PRINCIPLES (The \"Thumbnail Logic\"):\n" ++
    "1. ATTACK THE \"BELIEF\": If the script challenges a common Indian belief (e.g., \"Home food is best\" or \"FDs are safe\"), the header MUST directly question that belief.\n" ++
    "   BAD: \"Nutrition Facts Explained\"\n" ++
    "   GOOD: \"Is \x27Ghar Ka Khana\x27 Bad? ❌\"\n" ++
    "\n" ++
    "2. USE \"SYMPTOM\" WORDS: Connect the topic to what the viewer *feels* physically or financially.\n" ++
    "   Keywords to use: Tired, Broke, Stuck, Cheated, Late, Lost.\n" ++
    "   BAD: \"The Anemia Statistics\"\n" ++
    "   GOOD: \"Why You Are Always Tired 🥱\"\n" ++
    "\n" ++
    "3. SPECIFICITY IS KING: Use specific Nouns over generic concepts.\n" ++
    "   BAD: \"Eating Carbs is Bad\"\n" ++
    "   GOOD: \"Roti & Rice Trap ⚠️\"\n" ++
    "\n" ++
    "4. USE \"INDIAN CONTEXT\" SYMBOLS: Whenever money is involved, strictly use \"₹\", \"Lakh\", or \"Cr\".\n" ++
    "\n" ++
    "HEADER STRATEGIES TO USE:\n" ++
    "* **The \"Habit Breaker\" Hook:** (e.g., \"Stop Eating This\", \"Delete This App\")\n" ++
    "* **The \"Hidden Trap\" Hook:** (e.g., \"India\x27s Road SCAM\", \"The Real POLLUTERS\")\n" ++
    "* **The \"Math\" Hook:** (e.g., \"Buy Flat at ₹0\", \"The 50-30-20 Rule\")\n" ++
    "* **The \"Vs\" Hook:** (e.g., \"Red Bull vs Sting\", \"City vs Village\")\n" ++
    "* **The \"Questioning Authority\" Hook:** (e.g., \"They are FOOLING You\", \"RBI\x27s Surprise Move\")\n" ++
    "\n" ++
    "HEADER FORMATTING RULES:\n" ++
    "* **Length:** STRICTLY 3–6 words.\n" ++
    "* **Visual Structure:** 2 lines maximum.\n" ++
    "* **Emojis:** Minimal usage (max 1). Use alert style emojis (🚨, 🤯, 📉, 🆚, ❌, 🥱).\n" ++
    "* **Forbidden:** Do not use full sentences with periods.\n" ++
    "\n" ++
    "[OUTPUT FORMAT — NO EXTRA TEXT]\n" ++
    "Generate 10 responses.\n" ++
    "Respond ONLY with the Markdown table below. Do not include introductory text.\n" ++
    "\n" ++
    "| # | Viral Header (3–6 words) | Strategy Used |\n" ++
    "| :\x2d\x2d | :\x2d\x2d | :\x2d\x2d |\n" ++
    "| 1 | [Header Text] | [Strategy Name] |\n" ++
    "| 2 | [Header Text] | [Strategy Name] |\n" ++
    "...\n" ++
    "| 10 | [Header Text] | [Strategy Name] |\n" ++
    "\n"

/-- The prompt for generating titles (`get_title_prompt`, lines 197-235).
Unlike the header prompt, this one does interpolate its count parameter
(`title_count`, used in the instruction "Generate exactly ... titles").
(The `chosen_tone` parameter is accepted but not interpolated either; no
claim concerns it.) -/
def get_title_prompt (transcript_text chosen_tone : String)
    (title_count : Nat) : String :=
  "\n" ++
    "ROLE AND GOAL:\n" ++
    "You are a \"Smart Consumer & Business\" YouTube Shorts Strategist. Your goal is to write high-CTR, curiosity-driven titles for a channel that focuses on Finance, Business Case Studies, and Infrastructure Analysis (Metro/Railways).\n" ++
    "\n" ++
    "CONTEXT OF THE VIDEO:\n" ++
    "\x2d\x2d-\n" ++
    transcript_text ++
    "\n" ++
    "\x2d\x2d-\n" ++
    "\n" ++
    "STRATEGIC PARAMETERS:\n" ++
    "- **Desired Tone:** Educational, Investigative, \"Watchdog\" (Protecting the consumer).\n" ++
    "- **Format:** Output a Markdown Table.\n" ++
    "\n" ++
    "TITLE GENERATION STRATEGIES (Tailored for this Channel):\n" ++
    "1. **The \"Scam/Trap\" Alert:** Expose hidden clauses, fees, or dirty tricks (e.g., \"Your Insurance Won\x27t Cover THIS 🚫\").\n" ++
    "2. **The \"Vs\" Battle:** Compare two brands, cities, or systems (e.g., \"Delhi Metro vs NYC: Who Wins?\").\n" ++
    "3. **The \"Hidden Logic\" Reveal:** Explain the weird reason behind a price or rule (e.g., \"Why Bangalore Metro is SO Expensive\").\n" ++
    "4. **Myth Busting:** Challenge a common belief (e.g., \"Stop Buying Gold in 2025!\").\n" ++
    "5. **The \"Failure\" Autopsy:** Analyze why a big brand or project failed (e.g., \"Why Bira Lost Money\").\n" ++
    "6. **The \"Success\" Secret:** Analyze how a brand dominates (e.g., \"Why Bisleri is the King of Water\").\n" ++
    "7. **The \"Numbers\" Hook:** Use specific financial figures to shock (e.g., \"The ₹13,000 Crore Mistake\").\n" ++
    "8. **Urgent Warning:** Tell the viewer to stop/start doing something immediately (e.g., \"Don\x27t Buy a Flat Until You Watch This\").\n" ++
    "9. **National Reality Check:** Discuss Indian infrastructure or growth with a critical eye (e.g., \"The Dark Truth of Delhi Pollution\").\n" ++
    "10. **The \"Loophole\" Hack:** A legal or financial trick to save money (e.g., \"Use This 50-30-20 Rule\").\n" ++
    "\n" ++
    "INSTRUCTIONS:\n" ++
    "1. Analyze the transcript to find the specific \"Hook\" and \"Payoff\".\n" ++
    "2. Generate exactly " ++
    Nat.repr title_count ++
    " titles using the strategies above.\n" ++
    "3. Your output must be ONLY a Markdown table with two columns: \"Strategy\" and \"Suggested Title\". \n" ++
    "4. Do not include intro text or conclusions.\n" ++
    "\n" ++
    "OUTPUT FORMAT EXAMPLE:\n" ++
    "| Strategy | Suggested Title |\n" ++
    "| :\x2d\x2d- | :\x2d\x2d- |\n" ++
    "| The \"Vs\" Battle | Brand A vs Brand B: The Truth |\n"

/-! ## The structured-response extractor (lines 51-64 of `app.py`)

`parse_json_from_response` searches the completion for the Python regex
pattern (in prose): three backticks, the letters "json", `\s*`, a lazy group
`([\s\S]+?)`, `\s*`, three backticks — and, if it matches, parses the group
with `json.loads`; otherwise it parses the whole input.  A `JSONDecodeError`
is reported (`st.error`, modelled as the `Bool` flag below) and the empty
Python list is returned.  The regex engine (leftmost match; greedy `\s*` with
backtracking; lazy group) is implemented directly. -/

/-- The backtick character, written via its code point. -/
def tick : Char := '\x60'

/-- The closing fence `\x60\x60\x60` as a character list. -/
def tripleTick : List Char := [tick, tick, tick]

/-- The literal opening `\x60\x60\x60json` of the fenced-block pattern. -/
def fenceOpenL : List Char := [tick, tick, tick, 'j', 's', 'o', 'n']

/-- Does the pattern list occur as a prefix of the text list? -/
def startsWithL : List Char → List Char → Bool
  | [], _ => true
  | _ :: _, [] => false
  | p :: ps, c :: cs => p = c && startsWithL ps cs

/-- Length of the maximal whitespace run at the head (`\s*`, greedy). -/
def wsRunLen : List Char → Nat
  | [] => 0
  | c :: cs => if isPySpace c then wsRunLen cs + 1 else 0

/-- Does `\s*` followed by the closing fence match a prefix of `cs`?  The
backtick is not whitespace, so the greedy-with-backtracking `\s*` before a
literal backtick is equivalent to skipping the maximal whitespace run. -/
def fenceCloses (cs : List Char) : Bool :=
  startsWithL tripleTick (List.drop (wsRunLen cs) cs)

/-- The lazy group `([\s\S]+?)` followed by `\s*` and the closing fence:
the group is the shortest nonempty prefix whose remainder starts with
whitespace-then-fence. -/
def matchFenceGroup : List Char → Option (List Char)
  | [] => none
  | c :: rest =>
    if fenceCloses rest then some [c]
    else (matchFenceGroup rest).map (fun g => c :: g)

/-- Backtracking over the greedy `\s*` after `\x60\x60\x60json`: try the
longest whitespace skip first (`k` counts down). -/
def fenceTailGo (cs : List Char) : Nat → Option (List Char)
  | 0 => matchFenceGroup cs
  | k + 1 =>
    match matchFenceGroup (List.drop (k + 1) cs) with
    | some g => some g
    | none => fenceTailGo cs k

/-- Match the part of the pattern after the literal `\x60\x60\x60json`. -/
def fenceTail (cs : List Char) : Option (List Char) :=
  fenceTailGo cs (wsRunLen cs)

/-- `re.search` for the fenced-block pattern: leftmost position where the
whole pattern matches; on failure at one position the engine advances one
character. -/
def fenceSearch : List Char → Option (List Char)
  | [] => none
  | c :: rest =>
    if startsWithL fenceOpenL (c :: rest) then
      match fenceTail (List.drop 7 (c :: rest)) with
      | some g => some g
      | none => fenceSearch rest
    else fenceSearch rest

/-- JSON values as produced by `json.loads`.  Numbers keep their source
lexeme (their numeric value is never inspected by the program); objects keep
their members in source order (the program never reads them either). -/
inductive Json where
  | null
  | bool (b : Bool)
  | num (lexeme : String)
  | str (s : String)
  | arr (elems : List Json)
  | obj (members : List (String × Json))

/-- The whitespace characters of the JSON grammar (what `json.loads` skips
between tokens — a smaller set than Python's `str` whitespace). -/
def isJsonWs (c : Char) : Bool :=
  c = ' ' || c = '\t' || c = '\n' || c = '\r'

/-- Skip JSON whitespace. -/
def skipJsonWs : List Char → List Char
  | [] => []
  | c :: cs => if isJsonWs c then skipJsonWs cs else c :: cs

/-- Value of one hexadecimal digit. -/
def hexVal (c : Char) : Option Nat :=
  if c.isDigit then some (c.toNat - 48)
  else if 'a' ≤ c ∧ c ≤ 'f' then some (c.toNat - 87)
  else if 'A' ≤ c ∧ c ≤ 'F' then some (c.toNat - 55)
  else none

/-- Four hexadecimal digits of a `\uXXXX` escape. -/
def parseU4 : List Char → Option (Nat × List Char)
  | a :: b :: c :: d :: rest =>
    match hexVal a, hexVal b, hexVal c, hexVal d with
    | some x, some y, some z, some w =>
      some (((x * 16 + y) * 16 + z) * 16 + w, rest)
    | _, _, _, _ => none
  | _ => none

/-- The single-character JSON escapes. -/
def jsonEscapeChar (e : Char) : Option Char :=
  if e = '"' then some '"'
  else if e = '\\' then some '\\'
  else if e = '/' then some '/'
  else if e = 'b' then some '\x08'
  else if e = 'f' then some '\x0c'
  else if e = 'n' then some '\n'
  else if e = 'r' then some '\r'
  else if e = 't' then some '\t'
  else none

/-- Body of a JSON string after the opening quote (`py_scanstring`, strict
mode): literal characters below `0x20` are rejected; `\uXXXX` escapes combine
surrogate pairs.  CPython admits lone surrogates in `\u` escapes, which a
Lean `Char` cannot represent; they are mapped to U+FFFD here (no claim
exercises that corner). -/
def parseJsonStringBody : Nat → List Char → Option (List Char × List Char)
  | 0, _ => none
  | fuel + 1, cs =>
    match cs with
    | [] => none
    | c :: rest =>
      if c = '"' then some ([], rest)
      else if c = '\\' then
        match rest with
        | [] => none
        | e :: rest2 =>
          if e = 'u' then
            match parseU4 rest2 with
            | none => none
            | some (u, rest3) =>
              if 0xd800 ≤ u ∧ u ≤ 0xdbff then
                match rest3 with
                | '\\' :: 'u' :: rest4 =>
                  match parseU4 rest4 with
                  | none => none
                  | some (u2, rest5) =>
                    if 0xdc00 ≤ u2 ∧ u2 ≤ 0xdfff then
                      (parseJsonStringBody fuel rest5).map (fun p =>
                        (Char.ofNat
                          (0x10000 + ((u - 0xd800) * 0x400 + (u2 - 0xdc00)))
                          :: p.1, p.2))
                    else
                      (parseJsonStringBody fuel rest3).map (fun p =>
                        ('�' :: p.1, p.2))
                | _ =>
                  (parseJsonStringBody fuel rest3).map (fun p =>
                    ('�' :: p.1, p.2))
              else if 0xdc00 ≤ u ∧ u ≤ 0xdfff then
                (parseJsonStringBody fuel rest3).map (fun p =>
                  ('�' :: p.1, p.2))
              else
                (parseJsonStringBody fuel rest3).map (fun p =>
                  (Char.ofNat u :: p.1, p.2))
          else
            match jsonEscapeChar e with
            | some ch =>
              (parseJsonStringBody fuel rest2).map (fun p => (ch :: p.1, p.2))
            | none => none
      else if c.toNat < 0x20 then none
      else (parseJsonStringBody fuel rest).map (fun p => (c :: p.1, p.2))

/-- The optional fractional part `(\.\d+)?` of the JSON number regex:
consumed only when the dot is followed by at least one digit. -/
def jsonFrac (cs : List Char) : List Char × List Char :=
  match cs with
  | '.' :: rest =>
    let ds := rest.takeWhile Char.isDigit
    if ds = [] then ([], cs)
    else ('.' :: ds, rest.dropWhile Char.isDigit)
  | _ => ([], cs)

/-- The optional exponent part `([eE][-+]?\d+)?` of the JSON number regex:
consumed only when at least one digit follows. -/
def jsonExp (cs : List Char) : List Char × List Char :=
  match cs with
  | e :: '+' :: rest =>
    if e = 'e' ∨ e = 'E' then
      let ds := rest.takeWhile Char.isDigit
      if ds = [] then ([], cs)
      else (e :: '+' :: ds, rest.dropWhile Char.isDigit)
    else ([], cs)
  | e :: '-' :: rest =>
    if e = 'e' ∨ e = 'E' then
      let ds := rest.takeWhile Char.isDigit
      if ds = [] then ([], cs)
      else (e :: '-' :: ds, rest.dropWhile Char.isDigit)
    else ([], cs)
  | e :: rest =>
    if e = 'e' ∨ e = 'E' then
      let ds := rest.takeWhile Char.isDigit
      if ds = [] then ([], cs)
      else (e :: ds, rest.dropWhile Char.isDigit)
    else ([], cs)
  | _ => ([], cs)

/-- The JSON number regex `(-?(?:0|[1-9]\d*))(\.\d+)?([eE][-+]?\d+)?` matched
at the head of `cs`; returns the lexeme and the remainder. -/
def parseJsonNumber (cs : List Char) : Option (String × List Char) :=
  let (neg, cs1) :=
    match cs with
    | '-' :: rest => (['-'], rest)
    | _ => (([] : List Char), cs)
  match cs1 with
  | [] => none
  | d :: rest =>
    if d = '0' then
      let (f, r1) := jsonFrac rest
      let (x, r2) := jsonExp r1
      some (String.mk (neg ++ ['0'] ++ f ++ x), r2)
    else if d.isDigit then
      let ds := rest.takeWhile Char.isDigit
      let r0 := rest.dropWhile Char.isDigit
      let (f, r1) := jsonFrac r0
      let (x, r2) := jsonExp r1
      some (String.mk (neg ++ d :: ds ++ f ++ x), r2)
    else none

/-- The four keyword literals of the scanner. -/
def nullLit : List Char := ['n', 'u', 'l', 'l']

/-- `true` as a character list. -/
def trueLit : List Char := ['t', 'r', 'u', 'e']

/-- `false` as a character list. -/
def falseLit : List Char := ['f', 'a', 'l', 's', 'e']

/-- `NaN` as a character list (accepted by `json.loads` by default). -/
def nanLit : List Char := ['N', 'a', 'N']

/-- `Infinity` as a character list. -/
def infLit : List Char := ['I', 'n', 'f', 'i', 'n', 'i', 't', 'y']

/-- `-Infinity` as a character list. -/
def negInfLit : List Char := ['-', 'I', 'n', 'f', 'i', 'n', 'i', 't', 'y']

mutual

/-- One JSON value at the head of `cs` (`_scan_once` of the pure-Python
scanner): string, object, array, keyword, number, or one of the non-standard
constants.  `fuel` bounds the recursion depth (callers pass more than twice
the input length, which the consumption of at least one character per nested
call makes sufficient). -/
def parseJsonValue : Nat → List Char → Option (Json × List Char)
  | 0, _ => none
  | fuel + 1, cs =>
    match cs with
    | [] => none
    | c :: rest =>
      if c = '"' then
        match parseJsonStringBody (rest.length + 1) rest with
        | some (chars, rest2) => some (Json.str (String.mk chars), rest2)
        | none => none
      else if c = '\x7b' then
        let cs1 := skipJsonWs rest
        match cs1 with
        | '\x7d' :: r => some (Json.obj [], r)
        | _ =>
          match parseJsonObjectItems fuel cs1 with
          | some (ms, r) => some (Json.obj ms, r)
          | none => none
      else if c = '[' then
        let cs1 := skipJsonWs rest
        match cs1 with
        | ']' :: r => some (Json.arr [], r)
        | _ =>
          match parseJsonArrayItems fuel cs1 with
          | some (vs, r) => some (Json.arr vs, r)
          | none => none
      else if startsWithL nullLit cs then some (Json.null, List.drop 4 cs)
      else if startsWithL trueLit cs then some (Json.bool true, List.drop 4 cs)
      else if startsWithL falseLit cs then
        some (Json.bool false, List.drop 5 cs)
      else
        match parseJsonNumber cs with
        | some (lex, rest2) => some (Json.num lex, rest2)
        | none =>
          if startsWithL nanLit cs then some (Json.num "NaN", List.drop 3 cs)
          else if startsWithL infLit cs then
            some (Json.num "Infinity", List.drop 8 cs)
          else if startsWithL negInfLit cs then
            some (Json.num "-Infinity", List.drop 9 cs)
          else none

/-- Elements of a nonempty JSON array, starting at the first element
(whitespace already skipped); a trailing comma is an error. -/
def parseJsonArrayItems : Nat → List Char → Option (List Json × List Char)
  | 0, _ => none
  | fuel + 1, cs =>
    match parseJsonValue fuel cs with
    | none => none
    | some (v, rest) =>
      match skipJsonWs rest with
      | ']' :: r => some ([v], r)
      | ',' :: r =>
        match parseJsonArrayItems fuel (skipJsonWs r) with
        | some (vs, r2) => some (v :: vs, r2)
        | none => none
      | _ => none

/-- Members of a nonempty JSON object, starting at the opening quote of a
key (whitespace already skipped). -/
def parseJsonObjectItems :
    Nat → List Char → Option (List (String × Json) × List Char)
  | 0, _ => none
  | fuel + 1, cs =>
    match cs with
    | '"' :: rest =>
      match parseJsonStringBody (rest.length + 1) rest with
      | none => none
      | some (kcs, rest2) =>
        match skipJsonWs rest2 with
        | ':' :: r =>
          match parseJsonValue fuel (skipJsonWs r) with
          | none => none
          | some (v, r2) =>
            match skipJsonWs r2 with
            | '\x7d' :: r4 => some ([(String.mk kcs, v)], r4)
            | ',' :: r4 =>
              match parseJsonObjectItems fuel (skipJsonWs r4) with
              | some (ms, r5) => some ((String.mk kcs, v) :: ms, r5)
              | none => none
            | _ => none
        | _ => none
    | _ => none

end

/-- `json.loads`: skip leading whitespace, parse one value, skip trailing
whitespace, and require the end of the input ("Extra data" otherwise). -/
def jsonLoadsL (cs : List Char) : Option Json :=
  match parseJsonValue (2 * cs.length + 2) (skipJsonWs cs) with
  | some (v, rest) => if skipJsonWs rest = [] then some v else none
  | none => none

/-- The candidate payload of the extractor: the regex group if the fenced
pattern matches somewhere, the whole text otherwise (lines 53-58). -/
def candidatePayloadL (cs : List Char) : List Char :=
  match fenceSearch cs with
  | some g => g
  | none => cs

/-- `parse_json_from_response` on a character list: the parsed JSON value of
the candidate payload, or the empty Python list `[]` together with the raised
error flag (`st.error` at line 63) when `json.loads` fails. -/
def parse_json_from_responseL (cs : List Char) : Json × Bool :=
  match jsonLoadsL (candidatePayloadL cs) with
  | some v => (v, false)
  | none => (Json.arr [], true)

/-- `parse_json_from_response` (lines 51-64). -/
def parse_json_from_response (text : String) : Json × Bool :=
  parse_json_from_responseL text.data

/-! ## The subtitle normalizer (lines 33-49 of `app.py`)

`parse_srt` decodes the uploaded bytes with `decode('utf-8',
errors='ignore')`, removes block headers with the pattern (in prose)
`\d+ \s* \n \d\d:\d\d:\d\d[,.]\d\d\d \s arrow \s \d\d:\d\d:\d\d[,.]\d\d\d \s*`
(the arrow being two dashes and a greater-than sign), strips the result, then
removes `<...>` tag spans and joins the stripped nonempty lines with single
spaces.  The `re.sub` scanners (leftmost, non-overlapping matches) are
implemented with an explicit fuel argument equal to the input length, which
suffices because every step consumes at least one character. -/

/-- Is the byte a UTF-8 continuation byte? -/
def isCont (b : Nat) : Bool := 0x80 ≤ b && b ≤ 0xbf

/-- Admissible second byte of a multi-byte UTF-8 sequence for a given lead
byte (the restricted ranges exclude overlong forms, surrogates and code
points above U+10FFFF, as CPython's decoder does). -/
def utf8SecondOk (b b2 : Nat) : Bool :=
  if b = 0xe0 then 0xa0 ≤ b2 && b2 ≤ 0xbf
  else if b = 0xed then 0x80 ≤ b2 && b2 ≤ 0x9f
  else if b = 0xf0 then 0x90 ≤ b2 && b2 ≤ 0xbf
  else if b = 0xf4 then 0x80 ≤ b2 && b2 ≤ 0x8f
  else isCont b2

/-- `bytes.decode('utf-8', errors='ignore')`: invalid sequences are skipped
(the maximal valid subpart of a sequence is consumed before skipping, as in
CPython) and decoding continues; the function is total.  The fuel argument
(instantiated with the input length by the wrapper below) bounds the
recursion; every step consumes at least one byte. -/
def utf8DecodeIgnoreF : Nat → List Nat → List Char
  | _, [] => []
  | 0, _ => []
  | fuel + 1, b :: rest =>
    if b < 0x80 then Char.ofNat b :: utf8DecodeIgnoreF fuel rest
    else if 0xc2 ≤ b ∧ b ≤ 0xdf then
      match rest with
      | [] => []
      | b2 :: rest2 =>
        if isCont b2 then
          Char.ofNat ((b - 0xc0) * 0x40 + (b2 - 0x80)) ::
            utf8DecodeIgnoreF fuel rest2
        else utf8DecodeIgnoreF fuel rest
    else if 0xe0 ≤ b ∧ b ≤ 0xef then
      match rest with
      | [] => []
      | b2 :: rest2 =>
        if utf8SecondOk b b2 then
          match rest2 with
          | [] => []
          | b3 :: rest3 =>
            if isCont b3 then
              Char.ofNat ((b - 0xe0) * 0x1000 + (b2 - 0x80) * 0x40 + (b3 - 0x80))
                :: utf8DecodeIgnoreF fuel rest3
            else utf8DecodeIgnoreF fuel rest2
        else utf8DecodeIgnoreF fuel rest
    else if 0xf0 ≤ b ∧ b ≤ 0xf4 then
      match rest with
      | [] => []
      | b2 :: rest2 =>
        if utf8SecondOk b b2 then
          match rest2 with
          | [] => []
          | b3 :: rest3 =>
            if isCont b3 then
              match rest3 with
              | [] => []
              | b4 :: rest4 =>
                if isCont b4 then
                  Char.ofNat ((b - 0xf0) * 0x40000 + (b2 - 0x80) * 0x1000 +
                      (b3 - 0x80) * 0x40 + (b4 - 0x80))
                    :: utf8DecodeIgnoreF fuel rest4
                else utf8DecodeIgnoreF fuel rest3
            else utf8DecodeIgnoreF fuel rest2
        else utf8DecodeIgnoreF fuel rest
    else utf8DecodeIgnoreF fuel rest

/-- `bytes.decode('utf-8', errors='ignore')`. -/
def utf8DecodeIgnoreL (bs : List Nat) : List Char :=
  utf8DecodeIgnoreF bs.length bs

/-- UTF-8 encoding of one Unicode scalar (Lean `Char` values are exactly the
scalars). -/
def utf8EncodeChar (c : Char) : List Nat :=
  let n := c.toNat
  if n < 0x80 then [n]
  else if n < 0x800 then [0xc0 + n / 0x40, 0x80 + n % 0x40]
  else if n < 0x10000 then
    [0xe0 + n / 0x1000, 0x80 + n / 0x40 % 0x40, 0x80 + n % 0x40]
  else
    [0xf0 + n / 0x40000, 0x80 + n / 0x1000 % 0x40, 0x80 + n / 0x40 % 0x40,
     0x80 + n % 0x40]

/-- UTF-8 encoding of a character list. -/
def utf8EncodeL (cs : List Char) : List Nat := cs.flatMap utf8EncodeChar

/-- The 12-character timestamp `\d\d:\d\d:\d\d[,.]\d\d\d` (both separator
characters accepted) matched at the head; returns the consumed length. -/
def matchTs : List Char → Option Nat
  | d1 :: d2 :: c1 :: d3 :: d4 :: c2 :: d5 :: d6 :: sep :: d7 :: d8 :: d9 :: _ =>
    if d1.isDigit && d2.isDigit && c1 = ':' && d3.isDigit && d4.isDigit &&
        c2 = ':' && d5.isDigit && d6.isDigit && (sep = ',' || sep = '.') &&
        d7.isDigit && d8.isDigit && d9.isDigit then
      some 12
    else none
  | _ => none

/-- The part of the header pattern after the `\s*\n`: first timestamp, one
whitespace, the arrow (two dashes and a greater-than), one whitespace, second
timestamp, then the greedy trailing `\s*` (maximal, nothing follows it). -/
def matchHeaderTail (cs : List Char) : Option Nat :=
  match matchTs cs with
  | none => none
  | some n1 =>
    match List.drop n1 cs with
    | w1 :: m1 :: m2 :: gt :: w2 :: rest =>
      if isPySpace w1 && m1 = '-' && m2 = '-' && gt = '>' && isPySpace w2 then
        match matchTs rest with
        | none => none
        | some n2 => some (n1 + 5 + n2 + wsRunLen (List.drop n2 rest))
      else none
    | _ => none

/-- Positions `i` such that the characters before `i` are all whitespace and
the character at `i` is a newline: the candidate split points of `\s*\n`
(the backtracking choices), in increasing order. -/
def wsNlCandidates : List Char → Nat → List Nat
  | [], _ => []
  | c :: cs, i =>
    if isPySpace c then
      (if c = '\n' then [i] else []) ++ wsNlCandidates cs (i + 1)
    else []

/-- First candidate (in the given order) on which the continuation
succeeds. -/
def firstSomeNat (f : Nat → Option Nat) : List Nat → Option Nat
  | [] => none
  | k :: ks =>
    match f k with
    | some v => some v
    | none => firstSomeNat f ks

/-- `\s*\n` followed by the header tail: the greedy `\s*` tries the candidate
newline positions from the longest whitespace run down. -/
def matchWsNlThen (cs : List Char) : Option Nat :=
  firstSomeNat
    (fun i => (matchHeaderTail (List.drop (i + 1) cs)).map (fun m => i + 1 + m))
    ((wsNlCandidates cs 0).reverse)

/-- The whole header pattern matched at `c :: cs`; returns the number of
characters consumed from `cs` (the head `c`, a digit, is consumed as well).
`\d+` is taken maximally: neither `\s` nor the literal newline can match a
digit, so the regex engine never shortens the digit run.  Python `\d` also
matches non-ASCII decimal digits; this model restricts to ASCII (all inputs
considered in the theorems are ASCII, where the two agree). -/
def matchTsHeaderAt (c : Char) (cs : List Char) : Option Nat :=
  if c.isDigit then
    (matchWsNlThen (List.drop (cs.takeWhile Char.isDigit).length cs)).map
      (fun m => (cs.takeWhile Char.isDigit).length + m)
  else none

/-- `re.sub(header_pattern, '', text)` as a leftmost, non-overlapping
scanner, with fuel. -/
def removeHeadersF : Nat → List Char → List Char
  | _, [] => []
  | 0, cs => cs
  | fuel + 1, c :: cs =>
    match matchTsHeaderAt c cs with
    | some n => removeHeadersF fuel (List.drop n cs)
    | none => c :: removeHeadersF fuel cs

/-- `re.sub(header_pattern, '', text)`. -/
def removeHeaders (cs : List Char) : List Char := removeHeadersF cs.length cs

/-- `re.sub(tag_pattern, '', text)` where the tag pattern is an opening
angle bracket, one or more non-closing characters, and a closing angle
bracket, as a leftmost scanner with fuel. -/
def stripTagsF : Nat → List Char → List Char
  | _, [] => []
  | 0, cs => cs
  | fuel + 1, c :: cs =>
    if c = '<' then
      match cs.dropWhile (fun d => d ≠ '>') with
      | '>' :: rest2 =>
        if cs.takeWhile (fun d => d ≠ '>') = [] then '<' :: stripTagsF fuel cs
        else stripTagsF fuel rest2
      | _ => '<' :: stripTagsF fuel cs
    else c :: stripTagsF fuel cs

/-- `re.sub(tag_pattern, '', text)`. -/
def stripTags (cs : List Char) : List Char := stripTagsF cs.length cs

/-- The line-boundary characters of Python `str.splitlines`. -/
def isLineBoundary (c : Char) : Bool :=
  c = '\n' || c = '\r' || c = '\x0b' || c = '\x0c' || c = '\x1c' ||
  c = '\x1d' || c = '\x1e' || c = '\x85' || c = '\u2028' || c = '\u2029'

/-- Worker for `str.splitlines`: `acc` holds the current line reversed; a
trailing boundary produces no final empty line; a carriage return absorbs an
immediately following newline.  The fuel (instantiated with the input length)
bounds the recursion; every step consumes at least one character. -/
def pySplitGoF : Nat → List Char → List Char → List (List Char)
  | _, acc, [] => if acc = [] then [] else [acc.reverse]
  | 0, _, _ => []
  | fuel + 1, acc, c :: cs =>
    if c = '\r' then
      acc.reverse ::
        pySplitGoF fuel [] (if cs.head? = some '\n' then cs.tail else cs)
    else if isLineBoundary c then acc.reverse :: pySplitGoF fuel [] cs
    else pySplitGoF fuel (c :: acc) cs

/-- Python `str.splitlines()`. -/
def pySplitlinesL (cs : List Char) : List (List Char) :=
  pySplitGoF cs.length [] cs

/-- Joining with a separator, written recursively so that its equations hold
definitionally. -/
def joinSep (sep : List Char) : List (List Char) → List Char
  | [] => []
  | [x] => x
  | x :: y :: xs => x ++ (sep ++ joinSep sep (y :: xs))

/-- Line 45: `" ".join(ln.strip() for ln in text.splitlines() if
ln.strip())`. -/
def joinDialogue (cs : List Char) : List Char :=
  joinSep [' ']
    ((pySplitlinesL cs).filterMap (fun ln =>
      let t := pyStripL ln
      if t = [] then none else some t))

/-- The body of `parse_srt` (lines 36-46) on decoded bytes. -/
def parse_srt_core (file_content : List Nat) : List Char :=
  joinDialogue (stripTags (pyStripL (removeHeaders
    (utf8DecodeIgnoreL file_content))))

/-- `parse_srt` (lines 33-49).  The body never raises — decoding ignores
errors and the remaining steps are total — so the `except` branch returning
`None` (lines 47-49) is unreachable and the result is always `some`. -/
def parse_srt (file_content : List Nat) : Option String :=
  some (String.mk (parse_srt_core file_content))

/-! ## The .srt upload branch (lines 341-357 of `app.py`) -/

/-- Outcome of the upload branch: a parse result that is `None` or falsy
(empty) reports "Could not parse SRT" (line 349) and yields no transcript; a
truthy result becomes the candidate transcript input (line 346). -/
def srtUploadOutcome (file_content : List Nat) : Except Unit String :=
  match parse_srt file_content with
  | some parsed => if pyTruthy parsed then Except.ok parsed else Except.error ()
  | none => Except.error ()

/-- The full rerun triggered by an .srt upload: a successful parse feeds the
session-state update at lines 351-357 (the `setTranscript` transition); a
failed or empty parse leaves `transcript_input_area` empty, so the update is
skipped and only the script tail runs. -/
def applySrtUpload (s : AppState) (file_content : List Nat) : AppState :=
  match srtUploadOutcome file_content with
  | Except.ok parsed => step s (.setTranscript parsed)
  | Except.error _ => renderTail s

/-! ## Well-formed captioned-subtitle documents (the input class of C8)

A rendered document is a sequence of blocks separated by blank lines; a block
is a sequence-index line (one or more ASCII digits), a timestamp line, and
one or more dialogue lines; a dialogue line is a sequence of text segments
and angle-bracket tags.  The class is restricted so that the dialogue cannot
itself be mistaken for a block header: dialogue characters are ASCII, are not
decimal digits, are not line boundaries, and are not angle brackets (tags are
represented explicitly); each rendered line is nonempty and has no leading or
trailing whitespace. -/

/-- The ten decimal digit characters, as a total function. -/
def digitChar (d : Nat) : Char :=
  if d = 1 then '1' else if d = 2 then '2' else if d = 3 then '3'
  else if d = 4 then '4' else if d = 5 then '5' else if d = 6 then '6'
  else if d = 7 then '7' else if d = 8 then '8' else if d = 9 then '9'
  else '0'

/-- A timestamp `HH:MM:SS` plus milliseconds. -/
structure SrtTime where
  h : Nat
  m : Nat
  s : Nat
  ms : Nat

/-- Zero-padded rendering `HH:MM:SS` plus separator plus `mmm`; `comma`
selects the comma or period sub-second separator. -/
def renderTime (t : SrtTime) (comma : Bool) : List Char :=
  digitChar (t.h / 10 % 10) :: digitChar (t.h % 10) :: ':' ::
  digitChar (t.m / 10 % 10) :: digitChar (t.m % 10) :: ':' ::
  digitChar (t.s / 10 % 10) :: digitChar (t.s % 10) ::
  (if comma then ',' else '.') ::
  digitChar (t.ms / 100 % 10) :: digitChar (t.ms / 10 % 10) ::
  [digitChar (t.ms % 10)]

/-- One segment of a dialogue line: plain text, or an angle-bracket tag
(rendered with its delimiters). -/
inductive SrtSeg where
  | text (s : List Char)
  | tag (s : List Char)

/-- Rendering of a segment. -/
def renderSeg : SrtSeg → List Char
  | .text s => s
  | .tag s => '<' :: (s ++ ['>'])

/-- Rendering of a dialogue line. -/
def renderLine (segs : List SrtSeg) : List Char :=
  (segs.map renderSeg).flatten

/-- The text a dialogue line keeps after tag stripping: its text segments. -/
def lineText (segs : List SrtSeg) : List Char :=
  (segs.map (fun sg =>
    match sg with
    | SrtSeg.text s => s
    | SrtSeg.tag _ => [])).flatten

/-- One subtitle block. -/
structure SrtBlock where
  index : List Char
  start : SrtTime
  startComma : Bool
  stop : SrtTime
  stopComma : Bool
  lines : List (List SrtSeg)

/-- The timestamp line of a block (the arrow written as character
literals). -/
def renderTsLine (b : SrtBlock) : List Char :=
  renderTime b.start b.startComma ++
    (' ' :: '-' :: '-' :: '>' :: ' ' :: renderTime b.stop b.stopComma)

/-- The dialogue part of a block: its lines joined by newlines. -/
def renderDial (b : SrtBlock) : List Char :=
  joinSep ['\n'] (b.lines.map renderLine)

/-- The full rendering of a block. -/
def renderBlock (b : SrtBlock) : List Char :=
  b.index ++ ('\n' :: (renderTsLine b ++ ('\n' :: renderDial b)))

/-- The full rendering of a document: blocks separated by blank lines. -/
def renderSrt (blocks : List SrtBlock) : List Char :=
  joinSep ['\n', '\n'] (blocks.map renderBlock)

/-- Characters admissible inside dialogue text and tag interiors. -/
def safeTextChar (c : Char) : Bool :=
  c.toNat < 128 && !c.isDigit && !isLineBoundary c && c ≠ '<' && c ≠ '>'

/-- Well-formedness of a segment. -/
def wfSeg : SrtSeg → Bool
  | .text s => s.all safeTextChar
  | .tag s => decide (s ≠ []) && s.all safeTextChar

/-- Well-formedness of a dialogue line: well-formed segments, nonempty
rendering, and no leading or trailing whitespace. -/
def wfLine (segs : List SrtSeg) : Bool :=
  segs.all wfSeg && decide (renderLine segs ≠ []) &&
  (renderLine segs).head?.all (fun c => !isPySpace c) &&
  (renderLine segs).getLast?.all (fun c => !isPySpace c)

/-- Well-formedness of a block: a nonempty ASCII-digit index and at least one
well-formed dialogue line. -/
def wfBlock (b : SrtBlock) : Bool :=
  decide (b.index ≠ []) && b.index.all Char.isDigit &&
  !b.lines.isEmpty && b.lines.all wfLine

/-- Well-formedness of a document. -/
def wfSrt (blocks : List SrtBlock) : Bool := blocks.all wfBlock

/-- The output the specification predicts: the blocks' dialogue lines in
original order, tags dropped, each line stripped, empty lines dropped, joined
with single spaces. -/
def expectedDialogue (blocks : List SrtBlock) : List Char :=
  joinSep [' ']
    (((blocks.map SrtBlock.lines).flatten).filterMap (fun segs =>
      let t := pyStripL (lineText segs)
      if t = [] then none else some t))

/-- Flat sequence of lines with one empty line between consecutive groups:
the line structure `splitlines` sees in a rendered document whose blocks are
separated by blank lines. -/
def interEmpty : List (List (List Char)) → List (List Char)
  | [] => []
  | [L] => L
  | L :: L2 :: Ls => L ++ ([] :: interEmpty (L2 :: Ls))

/-- What `splitlines` returns on a newline-join of boundary-free lines: the
lines themselves, except that a trailing empty line is dropped. -/
def splitModel : List (List Char) → List (List Char)
  | [] => []
  | [l] => if l = [] then [] else [l]
  | l :: l2 :: ls => l :: splitModel (l2 :: ls)

/-- The per-line action of the dialogue join (line 45): strip, and drop the
line if nothing remains. -/
def stripDrop (ln : List Char) : Option (List Char) :=
  if pyStripL ln = [] then none else some (pyStripL ln)

/-! ## State-machine lemmas -/

/-- The radio value is always one of the (nonempty) options. -/
theorem radioValue_mem (options : List String) (prev : Option String)
    (h : options ≠ []) :
    ∃ t, radioValue options prev = some t ∧ t ∈ options := by
  rcases options with _ | ⟨o, os⟩
  · exact absurd rfl h
  · rcases prev with _ | p
    · exact ⟨o, rfl, List.mem_cons_self o os⟩
    · by_cases hmem : p ∈ o :: os
      · exact ⟨p, by simp [radioValue, hmem], hmem⟩
      · exact ⟨o, by simp [radioValue, hmem], List.mem_cons_self o os⟩

/-- A previous selection that is still among the options is kept. -/
theorem radioValue_eq_of_mem (options : List String) (p : String)
    (h : p ∈ options) : radioValue options (some p) = some p := by
  simp [radioValue, h]

/-- After the tail of any rerun, a nonempty tone list always carries a
selected member: line 379 reassigns `selected_tone` from the radio, whose
value is one of its options. -/
theorem renderTail_inv (s : AppState) :
    (renderTail s).generated_tones ≠ [] →
    ∃ t, (renderTail s).selected_tone = some t ∧
      t ∈ (renderTail s).generated_tones := by
  unfold renderTail
  by_cases h : s.generated_tones ≠ []
  · rw [if_pos h]
    intro _
    exact radioValue_mem s.generated_tones s.selected_tone h
  · rw [if_neg h]
    intro hne
    exact absurd hne h

/-- Every rerun ends in a state where a nonempty tone list carries a selected
member. -/
theorem step_inv (s : AppState) (e : Event) :
    (step s e).generated_tones ≠ [] →
    ∃ t, (step s e).selected_tone = some t ∧
      t ∈ (step s e).generated_tones :=
  renderTail_inv (applyEvent s e)

/-- The tone-membership invariant holds along any fold of `step`. -/
theorem foldl_step_inv (es : List Event) (s : AppState)
    (h : s.generated_tones ≠ [] →
      ∃ t, s.selected_tone = some t ∧ t ∈ s.generated_tones) :
    (es.foldl step s).generated_tones ≠ [] →
    ∃ t, (es.foldl step s).selected_tone = some t ∧
      t ∈ (es.foldl step s).generated_tones := by
  induction es generalizing s with
  | nil => exact h
  | cons e es ih => exact ih (step s e) (step_inv s e)

/-- In every reachable state, a nonempty tone list carries a selected
member. -/
theorem run_inv (es : List Event) :
    (run es).generated_tones ≠ [] →
    ∃ t, (run es).selected_tone = some t ∧ t ∈ (run es).generated_tones :=
  foldl_step_inv es initState (by intro h; exact absurd rfl h)

/-- The rerun tail does not move a state already satisfying the
tone-membership invariant. -/
theorem renderTail_eq_self (s : AppState)
    (h : s.generated_tones ≠ [] →
      ∃ t, s.selected_tone = some t ∧ t ∈ s.generated_tones) :
    renderTail s = s := by
  unfold renderTail
  by_cases hne : s.generated_tones ≠ []
  · rw [if_pos hne]
    obtain ⟨t, hsel, hmem⟩ := h hne
    rw [hsel, radioValue_eq_of_mem s.generated_tones t hmem, ← hsel]
  · rw [if_neg hne]
/-! ## Claim C1 -/

/-- C1 (counterexample).  The claim "the selected tone is always either unset
or a member of the current tone-candidate sequence" fails on the code: after a
transcript is set and one extraction produces `["Cautionary Warning"]` (which
the step-3 radio immediately selects), a second extraction whose completion
parses to the empty list empties `generated_tones`, but — since the radio is
no longer rendered — leaves the stale `selected_tone` set. -/
theorem claim_C1_counterexample :
    (run [.setTranscript "I lost money", .analyzeTones (some ["Cautionary Warning"]),
          .analyzeTones (some [])]).selected_tone = some "Cautionary Warning" ∧
    (run [.setTranscript "I lost money", .analyzeTones (some ["Cautionary Warning"]),
          .analyzeTones (some [])]).generated_tones = [] ∧
    "Cautionary Warning" ∉
      (run [.setTranscript "I lost money", .analyzeTones (some ["Cautionary Warning"]),
            .analyzeTones (some [])]).generated_tones :=
  ⟨by decide, by decide, by decide⟩

/-- C1 (amended).  For every sequence of transitions, the selected tone is
unset, or a member of the current tone sequence, or the current tone sequence
is empty — the last disjunct being the dangling case: a tone-extraction call
that empties the sequence leaves a previously selected tone set. -/
theorem claim_C1_selected_tone_invariant (es : List Event) :
    (run es).selected_tone = none ∨ (run es).generated_tones = [] ∨
    (∃ t, (run es).selected_tone = some t ∧ t ∈ (run es).generated_tones) := by
  by_cases h : (run es).generated_tones = []
  · exact Or.inr (Or.inl h)
  · exact Or.inr (Or.inr (run_inv es h))

/-! ## Claim C2 -/

/-- C2 (counterexample).  The claim "setting the transcript is valid from
every state and for every new document, including an empty one: the transition
stores the document and unconditionally clears the tone-candidate sequence,
the selected tone, and the result document" fails on the code: the guard at
line 352 requires a truthy (nonempty) new input, so an empty document is never
stored and clears nothing — all downstream state survives. -/
theorem claim_C2_counterexample :
    (run [.setTranscript "old words", .analyzeTones (some ["Calm Guide"]),
          .generate (some "H") (some "T") "2024-01-01 00:00:00",
          .setTranscript ""]).transcript_input = "old words" ∧
    (run [.setTranscript "old words", .analyzeTones (some ["Calm Guide"]),
          .generate (some "H") (some "T") "2024-01-01 00:00:00",
          .setTranscript ""]).generated_tones = ["Calm Guide"] ∧
    (run [.setTranscript "old words", .analyzeTones (some ["Calm Guide"]),
          .generate (some "H") (some "T") "2024-01-01 00:00:00",
          .setTranscript ""]).selected_tone = some "Calm Guide" ∧
    (run [.setTranscript "old words", .analyzeTones (some ["Calm Guide"]),
          .generate (some "H") (some "T") "2024-01-01 00:00:00",
          .setTranscript ""]).last_result_md ≠ "" :=
  ⟨by decide, by decide, by decide, by decide⟩

/-- C2 (amended).  From every reachable state, setting the transcript to a
nonempty document that differs from the stored one stores it and clears the
tone sequence, the selected tone and the result document; an empty document
(or a document equal to the stored one) changes nothing, so the previous
transcript and all downstream state survive. -/
theorem claim_C2_setTranscript (es : List Event) (doc : String) :
    (pyTruthy doc ∧ (run es).transcript_input ≠ doc →
      step (run es) (.setTranscript doc) =
        { transcript_input := doc
          generated_tones := []
          selected_tone := none
          last_result_md := ""
          last_run_time := (run es).last_run_time }) ∧
    (¬ (pyTruthy doc ∧ (run es).transcript_input ≠ doc) →
      step (run es) (.setTranscript doc) = run es) := by
  constructor
  · intro h
    unfold step
    rw [show applyEvent (run es) (.setTranscript doc) =
          { transcript_input := doc
            generated_tones := []
            selected_tone := none
            last_result_md := ""
            last_run_time := (run es).last_run_time } from by
      simp only [applyEvent]; rw [if_pos h]]
    simp [renderTail]
  · intro h
    unfold step
    rw [show applyEvent (run es) (.setTranscript doc) = run es from by
      simp only [applyEvent]; rw [if_neg h]]
    exact renderTail_eq_self (run es) (run_inv es)

/-- C2 witness: from the initial state, storing "hello" clears everything
downstream. -/
theorem claim_C2_setTranscript_witness :
    step (run []) (.setTranscript "hello") =
      { transcript_input := "hello"
        generated_tones := []
        selected_tone := none
        last_result_md := ""
        last_run_time := (run []).last_run_time } :=
  (claim_C2_setTranscript [] "hello").1 ⟨by decide, by decide⟩

/-! ## Claim C3 -/

/-- C3 (counterexample).  The claim "selecting a tone … clears any existing
result document" fails on the code: nothing in the radio handler (line 379)
touches `last_result_md`, so after generating results for tone "A" and then
selecting tone "B", the old result document is still present. -/
theorem claim_C3_counterexample :
    (run [.setTranscript "x", .analyzeTones (some ["A", "B"]),
          .generate (some "H") (some "T") "2024-01-01 00:00:00",
          .selectTone "B"]).selected_tone = some "B" ∧
    (run [.setTranscript "x", .analyzeTones (some ["A", "B"]),
          .generate (some "H") (some "T") "2024-01-01 00:00:00",
          .selectTone "B"]).last_result_md = combineResults "A" "H" "T" ∧
    (run [.setTranscript "x", .analyzeTones (some ["A", "B"]),
          .generate (some "H") (some "T") "2024-01-01 00:00:00",
          .selectTone "B"]).last_result_md ≠ "" :=
  ⟨by decide, by decide, by decide⟩

/-- C3 (amended).  From every reachable state, selecting a tone that is a
member of the current tone sequence sets the selected tone and leaves every
other slot — in particular any existing result document — unchanged; when no
result document exists and the tone is nonempty, the stage becomes
`ToneSelected`. -/
theorem claim_C3_selectTone (es : List Event) (t : String)
    (hmem : t ∈ (run es).generated_tones) :
    step (run es) (.selectTone t) = { run es with selected_tone := some t } ∧
    (step (run es) (.selectTone t)).last_result_md = (run es).last_result_md ∧
    (¬ pyTruthy (run es).last_result_md → pyTruthy t →
      stageOf (step (run es) (.selectTone t)) = .toneSelected) := by
  have hne : (run es).generated_tones ≠ [] := by
    intro h; rw [h] at hmem; exact absurd hmem (List.not_mem_nil t)
  have hstep : step (run es) (.selectTone t) =
      { run es with selected_tone := some t } := by
    unfold step
    rw [show applyEvent (run es) (.selectTone t) =
          { run es with selected_tone := some t } from by
      simp only [applyEvent]; rw [if_pos ⟨hne, hmem⟩]]
    exact renderTail_eq_self _ (fun _ => ⟨t, rfl, hmem⟩)
  refine ⟨hstep, by rw [hstep], ?_⟩
  intro hres ht
  rw [hstep]
  unfold stageOf
  rw [if_neg (by exact hres)]
  rw [if_pos (show pyTruthyOpt (some t) = true from ht)]

/-- C3 witness: with tones `["A", "B"]` present, selecting "B" changes only
the selected tone. -/
theorem claim_C3_selectTone_witness :
    step (run [.setTranscript "x", .analyzeTones (some ["A", "B"])])
        (.selectTone "B") =
      { run [.setTranscript "x", .analyzeTones (some ["A", "B"])] with
        selected_tone := some "B" } :=
  (claim_C3_selectTone [.setTranscript "x", .analyzeTones (some ["A", "B"])]
    "B" (by decide)).1

/-! ## Claim C4 -/

/-- C4 (confirmed).  Content generation is all-or-nothing: from every
reachable state with a truthy selected tone, if either the header call or the
title call raises, the rerun changes nothing at all — no result document (not
even a partial one) is published, and the previous result document, tone
selection and stage are all unchanged; when both calls succeed, the result
document combining both completions for the selected tone is stored together
with the current timestamp. -/
theorem claim_C4_all_or_nothing (es : List Event) (hdr ttl : Option String)
    (now : String) (hsel : pyTruthyOpt (run es).selected_tone = true) :
    ((hdr = none ∨ ttl = none) →
      step (run es) (.generate hdr ttl now) = run es) ∧
    (∀ h t, hdr = some h → ttl = some t →
      step (run es) (.generate hdr ttl now) =
        { run es with
          last_result_md :=
            combineResults ((run es).selected_tone.getD "") h t
          last_run_time := now }) := by
  have hid : renderTail (run es) = run es :=
    renderTail_eq_self (run es) (run_inv es)
  constructor
  · intro hfail
    unfold step
    rcases hfail with h | h
    · subst h
      rw [show applyEvent (run es) (.generate none ttl now) = run es from by
        simp only [applyEvent]; rw [if_pos hsel]]
      exact hid
    · subst h
      rcases hdr with _ | h
      · rw [show applyEvent (run es) (.generate none none now) = run es from by
          simp only [applyEvent]; rw [if_pos hsel]]
        exact hid
      · rw [show applyEvent (run es) (.generate (some h) none now) = run es from by
          simp only [applyEvent]; rw [if_pos hsel]]
        exact hid
  · intro h t hh ht
    subst hh; subst ht
    unfold step
    rw [show applyEvent (run es) (.generate (some h) (some t) now) =
          { run es with
            last_result_md :=
              combineResults ((run es).selected_tone.getD "") h t
            last_run_time := now } from by
      simp only [applyEvent]; rw [if_pos hsel]]
    exact renderTail_eq_self _ (fun hne => run_inv es hne)

/-- C4 witness: with tone "A" selected, a failing title call leaves the state
untouched. -/
theorem claim_C4_all_or_nothing_witness :
    step (run [.setTranscript "x", .analyzeTones (some ["A"])])
        (.generate (some "H") none "2024-01-01 00:00:00") =
      run [.setTranscript "x", .analyzeTones (some ["A"])] :=
  (claim_C4_all_or_nothing [.setTranscript "x", .analyzeTones (some ["A"])]
    (some "H") none "2024-01-01 00:00:00" (by decide)).1 (Or.inr rfl)
/-! ## Claim C5 -/

/-- C5 (code bug).  The claim "the header-generation prompt built from a
request with requested header count N incorporates N (so prompts built for
two different requested header counts differ)" is what the code plainly
intends — a "Headers to generate" slider (line 284) feeds `header_count`
through the call at line 395 — but `get_header_prompt` never interpolates the
parameter: its output-format section hardcodes "Generate 10 responses", so
the prompts for any two header counts are identical.  The title prompt, by
contrast, does interpolate `title_count`, and prompts for two different title
counts differ. -/
theorem claim_C5_header_count_ignored :
    (∀ (t tone a : String) (n m : Nat),
      get_header_prompt t tone n a = get_header_prompt t tone m a) ∧
    get_header_prompt "T" "Tone" 15 "" = get_header_prompt "T" "Tone" 10 "" ∧
    get_title_prompt "T" "Tone" 5 ≠ get_title_prompt "T" "Tone" 30 := by
  refine ⟨fun t tone a n m => rfl, rfl, ?_⟩
  intro h
  have hlen := congrArg String.length h
  simp only [get_title_prompt, String.length_append] at hlen
  have h5 : (Nat.repr 5).length = 1 := rfl
  have h30 : (Nat.repr 30).length = 2 := rfl
  rw [h5, h30] at hlen
  omega
/-! ## Extractor lemmas -/

/-- Unfolding equation for `wsRunLen`. -/
theorem wsRunLen_cons (c : Char) (cs : List Char) :
    wsRunLen (c :: cs) = if isPySpace c = true then wsRunLen cs + 1 else 0 := rfl

/-- Unfolding equation for `matchFenceGroup`. -/
theorem matchFenceGroup_cons (c : Char) (rest : List Char) :
    matchFenceGroup (c :: rest) =
      if fenceCloses rest then some [c]
      else (matchFenceGroup rest).map (fun g => c :: g) := rfl

/-- `startsWithL` decides list-prefix. -/
theorem startsWithL_iff (p : List Char) : ∀ cs : List Char,
    startsWithL p cs = true ↔ p <+: cs := by
  induction p with
  | nil => intro cs; simp [startsWithL]
  | cons a ps ih =>
    intro cs
    cases cs with
    | nil =>
      simp [startsWithL]
    | cons c rest =>
      simp [startsWithL, List.cons_prefix_cons, ih]

/-- A pattern is a prefix of itself followed by anything. -/
theorem startsWithL_append (p t : List Char) : startsWithL p (p ++ t) = true := by
  induction p with
  | nil => rfl
  | cons a ps ih => simp [startsWithL, ih]

/-- `re.search` for the fenced pattern fails when the opening literal occurs
nowhere in the text. -/
theorem fenceSearch_eq_none (cs : List Char) (h : ¬ (fenceOpenL <:+: cs)) :
    fenceSearch cs = none := by
  induction cs with
  | nil => rfl
  | cons c rest ih =>
    rw [fenceSearch]
    rw [if_neg (by
      intro hsw
      exact h (((startsWithL_iff fenceOpenL (c :: rest)).mp hsw).isInfix))]
    exact ih (by
      intro hinf
      rcases hinf with ⟨s, t, hst⟩
      exact h ⟨c :: s, t, by rw [← hst]; simp⟩)

/-- Scanning a backtick-free region just moves the search along. -/
theorem fenceSearch_append (pre tail : List Char)
    (hpre : ∀ c ∈ pre, c ≠ tick) :
    fenceSearch (pre ++ tail) = fenceSearch tail := by
  induction pre with
  | nil => rfl
  | cons c pre ih =>
    have hc : c ≠ tick := hpre c (List.mem_cons_self c pre)
    rw [List.cons_append, fenceSearch]
    rw [if_neg (by
      intro hsw
      rcases (startsWithL_iff fenceOpenL (c :: (pre ++ tail))).mp hsw with ⟨t, ht⟩
      rw [show fenceOpenL = tick :: [tick, tick, 'j', 's', 'o', 'n'] from rfl] at ht
      simp only [List.cons_append] at ht
      exact hc (List.head_eq_of_cons_eq ht.symm))]
    exact ih (fun d hd => hpre d (List.mem_cons_of_mem c hd))

/-- A whitespace character at the head just shifts `fenceCloses` along. -/
theorem fenceCloses_cons_ws (x : Char) (rest : List Char)
    (h : isPySpace x = true) :
    fenceCloses (x :: rest) = fenceCloses rest := by
  unfold fenceCloses
  rw [wsRunLen_cons, if_pos h, List.drop_succ_cons]

/-- `\s*` followed by the closing fence cannot match at the head of a
backtick-free region that still contains a non-whitespace character. -/
theorem fenceCloses_false (xs : List Char) : ∀ ys : List Char,
    (∀ c ∈ xs, c ≠ tick) → (∃ c ∈ xs, isPySpace c = false) →
    fenceCloses (xs ++ ys) = false := by
  induction xs with
  | nil =>
    intro ys _ hnw
    rcases hnw with ⟨c, hc, _⟩
    exact absurd hc (List.not_mem_nil c)
  | cons x xs ih =>
    intro ys hnb hnw
    by_cases hx : isPySpace x = true
    · rw [List.cons_append, fenceCloses_cons_ws x (xs ++ ys) hx]
      refine ih ys (fun c hc => hnb c (List.mem_cons_of_mem x hc)) ?_
      rcases hnw with ⟨c, hc, hcw⟩
      rcases List.mem_cons.mp hc with rfl | hc2
      · rw [hx] at hcw; cases hcw
      · exact ⟨c, hc2, hcw⟩
    · unfold fenceCloses
      rw [List.cons_append, wsRunLen_cons, if_neg hx, List.drop_zero]
      have hnt : ¬ (tick = x) :=
        fun hh => (hnb x (List.mem_cons_self x xs)) hh.symm
      rw [show tripleTick = tick :: [tick, tick] from rfl]
      simp [startsWithL, hnt]

/-- A nonempty list whose last character is not whitespace contains a
non-whitespace character. -/
theorem exists_nonws_of_getLast (xs : List Char) (hne : xs ≠ [])
    (h : xs.getLast?.all (fun c => !isPySpace c) = true) :
    ∃ c ∈ xs, isPySpace c = false := by
  refine ⟨xs.getLast hne, List.getLast_mem hne, ?_⟩
  rw [List.getLast?_eq_getLast_of_ne_nil hne] at h
  simpa using h

/-- The lazy group stops exactly at the closing fence: on a backtick-free,
right-trimmed, nonempty interior followed by newline-fence, the group is the
whole interior. -/
theorem matchFenceGroup_exact (inner : List Char) : ∀ post : List Char,
    (∀ c ∈ inner, c ≠ tick) → inner ≠ [] →
    inner.getLast?.all (fun c => !isPySpace c) = true →
    matchFenceGroup (inner ++ ('\n' :: (tripleTick ++ post))) = some inner := by
  induction inner with
  | nil => intro post _ hne _; exact absurd rfl hne
  | cons i irest ih =>
    intro post hnb _ hlast
    rcases irest with _ | ⟨j, jrest⟩
    · rw [List.cons_append, List.nil_append, matchFenceGroup_cons]
      rw [if_pos (by
        rw [fenceCloses_cons_ws '\n' (tripleTick ++ post) (by decide)]
        unfold fenceCloses
        rw [show tripleTick ++ post = tick :: ([tick, tick] ++ post) from rfl,
          wsRunLen_cons, if_neg (by decide), List.drop_zero]
        rw [show tick :: ([tick, tick] ++ post) = tripleTick ++ post from rfl]
        exact startsWithL_append tripleTick post)]
    · rw [List.getLast?_cons_cons] at hlast
      rw [List.cons_append, matchFenceGroup_cons]
      rw [if_neg (by
        rw [fenceCloses_false (j :: jrest) ('\n' :: (tripleTick ++ post))
          (fun c hc => hnb c (List.mem_cons_of_mem i hc))
          (exists_nonws_of_getLast (j :: jrest) (by simp) hlast)]
        simp)]
      rw [ih post (fun c hc => hnb c (List.mem_cons_of_mem i hc))
        (by simp) hlast]
      rfl

/-- After the opening literal, the greedy `\s*` absorbs exactly the newline
and the group is the interior. -/
theorem fenceTail_exact (inner post : List Char)
    (hnb : ∀ c ∈ inner, c ≠ tick) (hne : inner ≠ [])
    (hhead : inner.head?.all (fun c => !isPySpace c) = true)
    (hlast : inner.getLast?.all (fun c => !isPySpace c) = true) :
    fenceTail ('\n' :: (inner ++ ('\n' :: (tripleTick ++ post)))) = some inner := by
  rcases inner with _ | ⟨i, irest⟩
  · exact absurd rfl hne
  · have hh : isPySpace i = false := by
      simp only [List.head?_cons, Option.all_some, Bool.not_eq_true'] at hhead
      exact hhead
    have hws : wsRunLen ('\n' :: ((i :: irest) ++ ('\n' :: (tripleTick ++ post)))) = 1 := by
      rw [wsRunLen_cons, if_pos (by decide), List.cons_append, wsRunLen_cons,
        if_neg (by rw [hh]; simp)]
    unfold fenceTail
    rw [hws]
    rw [show fenceTailGo
          ('\n' :: ((i :: irest) ++ ('\n' :: (tripleTick ++ post)))) 1 =
        (match matchFenceGroup
            ((i :: irest) ++ ('\n' :: (tripleTick ++ post))) with
         | some g => some g
         | none => fenceTailGo
            ('\n' :: ((i :: irest) ++ ('\n' :: (tripleTick ++ post)))) 0)
        from rfl]
    rw [matchFenceGroup_exact (i :: irest) post hnb hne hlast]

/-- `re.search` on backtick-free prose followed by a well-formed fenced JSON
block finds exactly the block interior. -/
theorem fenceSearch_found (pre inner post : List Char)
    (hpre : ∀ c ∈ pre, c ≠ tick)
    (hnb : ∀ c ∈ inner, c ≠ tick) (hne : inner ≠ [])
    (hhead : inner.head?.all (fun c => !isPySpace c) = true)
    (hlast : inner.getLast?.all (fun c => !isPySpace c) = true) :
    fenceSearch (pre ++ (fenceOpenL ++
      ('\n' :: (inner ++ ('\n' :: (tripleTick ++ post)))))) = some inner := by
  rw [fenceSearch_append pre _ hpre]
  rw [show fenceOpenL ++ ('\n' :: (inner ++ ('\n' :: (tripleTick ++ post)))) =
        tick :: ([tick, tick, 'j', 's', 'o', 'n'] ++
          ('\n' :: (inner ++ ('\n' :: (tripleTick ++ post))))) from rfl]
  rw [fenceSearch]
  rw [if_pos (by
    rw [show tick :: ([tick, tick, 'j', 's', 'o', 'n'] ++
          ('\n' :: (inner ++ ('\n' :: (tripleTick ++ post))))) =
        fenceOpenL ++ ('\n' :: (inner ++ ('\n' :: (tripleTick ++ post)))) from rfl]
    exact startsWithL_append fenceOpenL _)]
  rw [show List.drop 7 (tick :: ([tick, tick, 'j', 's', 'o', 'n'] ++
        ('\n' :: (inner ++ ('\n' :: (tripleTick ++ post)))))) =
      '\n' :: (inner ++ ('\n' :: (tripleTick ++ post))) from rfl]
  rw [fenceTail_exact inner post hnb hne hhead hlast]

/-! ## Claim C6 -/

/-- C6 (confirmed).  The extractor takes as candidate payload the interior of
the first JSON-tagged fenced code block when one is present (first conjunct:
prose before the block is backtick-free, the interior is nonempty, trimmed
and backtick-free), and the entire input text otherwise (second conjunct: no
occurrence of the opening literal anywhere); in both cases it returns the
parsed JSON value when the payload parses, and the empty list together with
the error signal when it does not — and, being a total function, it never
raises. -/
theorem claim_C6_extractor :
    (∀ pre inner post : List Char,
      (∀ c ∈ pre, c ≠ tick) → (∀ c ∈ inner, c ≠ tick) → inner ≠ [] →
      inner.head?.all (fun c => !isPySpace c) = true →
      inner.getLast?.all (fun c => !isPySpace c) = true →
      parse_json_from_responseL
          (pre ++ (fenceOpenL ++ ('\n' :: (inner ++ ('\n' :: (tripleTick ++ post))))))
        = (match jsonLoadsL inner with
           | some v => (v, false)
           | none => (Json.arr [], true))) ∧
    (∀ cs : List Char, ¬ (fenceOpenL <:+: cs) →
      parse_json_from_responseL cs =
        (match jsonLoadsL cs with
         | some v => (v, false)
         | none => (Json.arr [], true))) := by
  constructor
  · intro pre inner post hpre hnb hne hhead hlast
    unfold parse_json_from_responseL candidatePayloadL
    rw [fenceSearch_found pre inner post hpre hnb hne hhead hlast]
  · intro cs h
    unfold parse_json_from_responseL candidatePayloadL
    rw [fenceSearch_eq_none cs h]

/-- C6 witness: a completion with prose around a fenced `["X"]` block yields
exactly `["X"]`, with no error signalled. -/
theorem claim_C6_extractor_witness :
    parse_json_from_response
        "Sure! Here are the tones:\n\x60\x60\x60json\n[\"X\"]\n\x60\x60\x60\nEnjoy." =
      (Json.arr [Json.str "X"], false) := by
  have h := claim_C6_extractor.1 "Sure! Here are the tones:\n".data
    "[\"X\"]".data "\nEnjoy.".data
    (by decide) (by decide) (by decide) (by decide) (by decide)
  unfold parse_json_from_response
  rw [show ("Sure! Here are the tones:\n\x60\x60\x60json\n[\"X\"]\n\x60\x60\x60\nEnjoy." : String).data =
        "Sure! Here are the tones:\n".data ++ (fenceOpenL ++
          ('\n' :: ("[\"X\"]".data ++ ('\n' :: (tripleTick ++ "\nEnjoy.".data))))) from by decide]
  rw [h]
  rfl

/-! ## Claim C9 -/

/-- C9 (confirmed).  The extractor performs no shape validation on a
successful parse: whenever the candidate payload parses as any JSON value,
that value is returned unchanged with no error signal — in particular a JSON
object, a bare number, and a mixed-type array are all passed through rather
than rejected or replaced by an empty sequence. -/
theorem claim_C9_no_shape_validation :
    (∀ (cs : List Char) (v : Json),
      jsonLoadsL (candidatePayloadL cs) = some v →
      parse_json_from_responseL cs = (v, false)) ∧
    parse_json_from_response "\x7b\"a\": 1\x7d" =
      (Json.obj [("a", Json.num "1")], false) ∧
    parse_json_from_response "42" = (Json.num "42", false) ∧
    parse_json_from_response "[1, \"x\"]" =
      (Json.arr [Json.num "1", Json.str "x"], false) := by
  refine ⟨?_, rfl, rfl, rfl⟩
  intro cs v h
  unfold parse_json_from_responseL
  rw [h]

/-- C9 witness: the general pass-through statement applied to the bare-number
completion "42". -/
theorem claim_C9_no_shape_validation_witness :
    parse_json_from_responseL ("42" : String).data = (Json.num "42", false) :=
  claim_C9_no_shape_validation.1 ("42" : String).data (Json.num "42") rfl
/-! ## Claim C7 -/

/-- C7 (confirmed).  The subtitle normalizer is total over arbitrary byte
input: for every byte sequence it returns `some` string (the `except` branch
of `parse_srt` is unreachable because every processing step, starting with
the error-ignoring decoder, is total), and an undecodable byte — here the
invalid lead byte 255 — is dropped rather than failing the decode. -/
theorem claim_C7_normalizer_total (bs : List Nat) :
    (∃ s, parse_srt bs = some s) ∧
    utf8DecodeIgnoreL (255 :: bs) = utf8DecodeIgnoreL bs :=
  ⟨⟨String.mk (parse_srt_core bs), rfl⟩, rfl⟩

/-! ## Claim C10 -/

/-- C10 (confirmed).  A well-formed subtitle input whose normalization yields
the empty string is treated at the upload boundary exactly like a parse
failure: the branch at lines 345-349 tests the parsed string for truthiness,
so an empty result reports the parse error, and — the transcript candidate
staying empty — the session update at lines 351-357 never fires, leaving
every reachable state unchanged.  An empty-but-valid subtitle file can
therefore never produce a set (empty) transcript. -/
theorem claim_C10_empty_srt_like_failure (bs : List Nat) (es : List Event)
    (h : parse_srt bs = some "") :
    srtUploadOutcome bs = Except.error () ∧
    applySrtUpload (run es) bs = run es := by
  have hout : srtUploadOutcome bs = Except.error () := by
    unfold srtUploadOutcome
    rw [h]
    rfl
  refine ⟨hout, ?_⟩
  unfold applySrtUpload
  rw [hout]
  exact renderTail_eq_self (run es) (run_inv es)

/-- C10 witness: a block whose only dialogue is a bare tag normalizes to the
empty string, the upload reports the error, and the initial state is
untouched. -/
theorem claim_C10_empty_srt_like_failure_witness :
    srtUploadOutcome
        (utf8EncodeL ("1\n00:00:00,000 \x2d\x2d> 00:00:01,000\n<i>" : String).data) =
      Except.error () ∧
    applySrtUpload (run [])
        (utf8EncodeL ("1\n00:00:00,000 \x2d\x2d> 00:00:01,000\n<i>" : String).data) =
      run [] :=
  claim_C10_empty_srt_like_failure
    (utf8EncodeL ("1\n00:00:00,000 \x2d\x2d> 00:00:01,000\n<i>" : String).data)
    [] (by decide)
/-! ## Character-class and list helpers for the normalizer proofs -/

/-- `digitChar` always yields one of the ten digit characters. -/
theorem digitChar_mem (d : Nat) :
    digitChar d ∈ (['0', '1', '2', '3', '4', '5', '6', '7', '8', '9'] : List Char) := by
  unfold digitChar
  repeat' split
  all_goals decide

/-- The relevant facts about the ten digit characters. -/
theorem digit_list_prop :
    ∀ c ∈ (['0', '1', '2', '3', '4', '5', '6', '7', '8', '9'] : List Char),
      c.isDigit = true ∧ isPySpace c = false ∧ c.toNat < 128 ∧
      isLineBoundary c = false ∧ c ≠ '<' ∧ c ≠ '>' ∧ c ≠ '\n' := by
  decide

/-- The relevant facts about `digitChar`. -/
theorem digitChar_prop (d : Nat) :
    (digitChar d).isDigit = true ∧ isPySpace (digitChar d) = false ∧
    (digitChar d).toNat < 128 ∧ isLineBoundary (digitChar d) = false ∧
    digitChar d ≠ '<' ∧ digitChar d ≠ '>' ∧ digitChar d ≠ '\n' :=
  digit_list_prop (digitChar d) (digitChar_mem d)

/-- Unpacking `safeTextChar`. -/
theorem safeTextChar_spec (c : Char) (h : safeTextChar c = true) :
    c.toNat < 128 ∧ c.isDigit = false ∧ isLineBoundary c = false ∧
    c ≠ '<' ∧ c ≠ '>' ∧ c ≠ '\n' ∧ c ≠ '\r' ∧ c ≠ '\x0b' := by
  unfold safeTextChar at h
  simp only [Bool.and_eq_true, decide_eq_true_eq, Bool.not_eq_true'] at h
  obtain ⟨⟨⟨⟨h1, h2⟩, h3⟩, h4⟩, h5⟩ := h
  refine ⟨h1, h2, h3, h4, h5, ?_, ?_, ?_⟩
  · intro hc; rw [hc] at h3; exact absurd h3 (by decide)
  · intro hc; rw [hc] at h3; exact absurd h3 (by decide)
  · intro hc; rw [hc] at h3; exact absurd h3 (by decide)

/-- An ASCII digit character is not whitespace (and is ASCII). -/
theorem isDigit_spec (c : Char) (h : c.isDigit = true) :
    isPySpace c = false ∧ c.toNat < 128 ∧ isLineBoundary c = false ∧
    c ≠ '<' ∧ c ≠ '>' ∧ c ≠ '\n' := by
  have hb : 48 ≤ c.toNat ∧ c.toNat ≤ 57 := by
    unfold Char.isDigit at h
    simp only [Bool.and_eq_true, decide_eq_true_eq] at h
    exact ⟨h.1, h.2⟩
  have hc : c = Char.ofNat c.toNat := (Char.ofNat_toNat c).symm
  obtain ⟨hb1, hb2⟩ := hb
  interval_cases hn : c.toNat
  all_goals (rw [hc]; decide)

/-- `takeWhile` runs through a satisfying region up to the first failure. -/
theorem takeWhile_all_append (p : Char → Bool) (xs : List Char) (y : Char)
    (rest : List Char) (hxs : ∀ c ∈ xs, p c = true) (hy : p y = false) :
    (xs ++ y :: rest).takeWhile p = xs := by
  induction xs with
  | nil => simp [List.takeWhile_cons, hy]
  | cons a as ih =>
    rw [List.cons_append, List.takeWhile_cons,
      hxs a (List.mem_cons_self a as)]
    rw [ih (fun c hc => hxs c (List.mem_cons_of_mem a hc))]
    simp

/-- `dropWhile` runs through a satisfying region up to the first failure. -/
theorem dropWhile_all_append (p : Char → Bool) (xs : List Char) (y : Char)
    (rest : List Char) (hxs : ∀ c ∈ xs, p c = true) (hy : p y = false) :
    (xs ++ y :: rest).dropWhile p = y :: rest := by
  induction xs with
  | nil => simp [List.dropWhile_cons, hy]
  | cons a as ih =>
    rw [List.cons_append, List.dropWhile_cons]
    rw [hxs a (List.mem_cons_self a as)]
    simp only [if_true]
    exact ih (fun c hc => hxs c (List.mem_cons_of_mem a hc))

/-- Unfolding equation: two-or-more `joinSep`. -/
theorem joinSep_cons₂ (sep x y : List Char) (xs : List (List Char)) :
    joinSep sep (x :: y :: xs) = x ++ (sep ++ joinSep sep (y :: xs)) := rfl

/-- A join starting with a nonempty chunk is nonempty. -/
theorem joinSep_ne_nil (sep x : List Char) (xs : List (List Char))
    (hx : x ≠ []) : joinSep sep (x :: xs) ≠ [] := by
  cases xs with
  | nil => exact hx
  | cons y ys =>
    rw [joinSep_cons₂]
    intro hcontra
    rcases List.append_eq_nil.mp hcontra with ⟨h1, _⟩
    exact hx h1

/-- The head of a join is the head of its first (nonempty) chunk. -/
theorem joinSep_head? (sep x : List Char) (xs : List (List Char))
    (hx : x ≠ []) : (joinSep sep (x :: xs)).head? = x.head? := by
  cases xs with
  | nil => rfl
  | cons y ys =>
    rw [joinSep_cons₂]
    rcases x with _ | ⟨a, as⟩
    · exact absurd rfl hx
    · rfl

/-- The last element of a join is the last element of its last chunk. -/
theorem joinSep_getLast? (sep : List Char) (hsep : sep ≠ []) :
    ∀ (l : List (List Char)) (hne : l ≠ []) (_ : ∀ x ∈ l, x ≠ []),
      (joinSep sep l).getLast? = (l.getLast hne).getLast? := by
  intro l
  induction l with
  | nil => intro hne _; exact absurd rfl hne
  | cons x xs ih =>
    intro _ hall
    cases xs with
    | nil => simp [joinSep]
    | cons y ys =>
      rw [joinSep_cons₂]
      have hjoin_ne : joinSep sep (y :: ys) ≠ [] :=
        joinSep_ne_nil sep y ys (hall y (by simp))
      have hsepjoin_ne : sep ++ joinSep sep (y :: ys) ≠ [] := by
        intro hcontra
        exact hsep (List.append_eq_nil.mp hcontra).1
      rw [List.getLast?_append_of_ne_nil _ hsepjoin_ne,
        List.getLast?_append_of_ne_nil _ hjoin_ne]
      rw [ih (by simp) (fun z hz => hall z (List.mem_cons_of_mem x hz))]
      rw [List.getLast_cons_cons]

/-- Membership in a join comes from a chunk or from the separator. -/
theorem mem_joinSep (sep : List Char) (c : Char) :
    ∀ l : List (List Char), c ∈ joinSep sep l →
      (∃ x ∈ l, c ∈ x) ∨ c ∈ sep := by
  intro l
  induction l with
  | nil => intro h; exact absurd h (List.not_mem_nil c)
  | cons x xs ih =>
    intro h
    cases xs with
    | nil => exact Or.inl ⟨x, by simp, h⟩
    | cons y ys =>
      rw [joinSep_cons₂] at h
      rcases List.mem_append.mp h with hx | hrest
      · exact Or.inl ⟨x, by simp, hx⟩
      · rcases List.mem_append.mp hrest with hs | hj
        · exact Or.inr hs
        · rcases ih hj with ⟨z, hz, hcz⟩ | hs
          · exact Or.inl ⟨z, List.mem_cons_of_mem x hz, hcz⟩
          · exact Or.inr hs
/-! ## Header-removal lemmas -/

/-- The header pattern cannot match at a non-digit character. -/
theorem matchTsHeaderAt_nodigit (c : Char) (cs : List Char)
    (h : c.isDigit = false) : matchTsHeaderAt c cs = none := by
  unfold matchTsHeaderAt
  rw [h]
  simp

/-- The header scanner on the empty list. -/
theorem removeHeadersF_nil (f : Nat) : removeHeadersF f [] = [] := by
  cases f <;> rfl

/-- Unfolding equation for the header scanner. -/
theorem removeHeadersF_cons (f : Nat) (c : Char) (cs : List Char) :
    removeHeadersF (f + 1) (c :: cs) =
      match matchTsHeaderAt c cs with
      | some n => removeHeadersF f (List.drop n cs)
      | none => c :: removeHeadersF f cs := rfl

/-- Non-digit characters pass through the header scanner unchanged. -/
theorem removeHeadersF_pass (xs : List Char) : ∀ (rest : List Char) (f : Nat),
    (∀ c ∈ xs, c.isDigit = false) →
    removeHeadersF (xs.length + f) (xs ++ rest) = xs ++ removeHeadersF f rest := by
  induction xs with
  | nil => intro rest f _; simp
  | cons a as ih =>
    intro rest f hnd
    have hlen : (a :: as).length + f = (as.length + f) + 1 := by
      simp [List.length_cons]; omega
    rw [hlen, List.cons_append, removeHeadersF_cons,
      matchTsHeaderAt_nodigit a _ (hnd a (List.mem_cons_self a as))]
    show a :: removeHeadersF (as.length + f) (as ++ rest) =
      (a :: as) ++ removeHeadersF f rest
    rw [ih rest f (fun c hc => hnd c (List.mem_cons_of_mem a hc))]
    rfl

/-- A successful header match at the head consumes exactly the header. -/
theorem removeHeadersF_consume (f : Nat) (c : Char) (H S : List Char)
    (h : matchTsHeaderAt c (H ++ S) = some H.length) :
    removeHeadersF (f + 1) (c :: (H ++ S)) = removeHeadersF f S := by
  rw [removeHeadersF_cons, h]
  show removeHeadersF f (List.drop H.length (H ++ S)) = removeHeadersF f S
  rw [List.drop_left]

/-- A list whose head is non-whitespace (or which is empty) has a zero
whitespace run. -/
theorem wsRunLen_eq_zero (cs : List Char)
    (h : cs.head?.all (fun c => !isPySpace c) = true) : wsRunLen cs = 0 := by
  cases cs with
  | nil => rfl
  | cons c cs' =>
    simp only [List.head?_cons, Option.all_some, Bool.not_eq_true'] at h
    rw [wsRunLen_cons, if_neg (by rw [h]; simp)]

/-- The timestamp matcher accepts a rendered timestamp (with either
separator) and consumes its 12 characters. -/
theorem matchTs_renderTime (t : SrtTime) (comma : Bool) (rest : List Char) :
    matchTs (renderTime t comma ++ rest) = some 12 := by
  cases comma <;>
    simp [renderTime, matchTs, (digitChar_prop _).1]

/-- A rendered timestamp has 12 characters. -/
theorem renderTime_length (t : SrtTime) (comma : Bool) :
    (renderTime t comma).length = 12 := by
  cases comma <;> rfl
/-- Candidate positions of `\s*\n` before a non-whitespace character: none. -/
theorem wsNlCandidates_nonws (c : Char) (cs : List Char) (i : Nat)
    (h : isPySpace c = false) : wsNlCandidates (c :: cs) i = [] := by
  unfold wsNlCandidates
  rw [h]
  simp

/-- The header-tail matcher accepts a rendered timestamp line followed by a
newline and non-whitespace content, consuming 30 characters. -/
theorem matchHeaderTail_render (t1 t2 : SrtTime) (c1 c2 : Bool) (S : List Char)
    (hS : S.head?.all (fun c => !isPySpace c) = true) :
    matchHeaderTail (renderTime t1 c1 ++
      (' ' :: '-' :: '-' :: '>' :: ' ' :: (renderTime t2 c2 ++ ('\n' :: S)))) =
      some 30 := by
  unfold matchHeaderTail
  rw [matchTs_renderTime t1 c1]
  show (match List.drop 12 (renderTime t1 c1 ++
      (' ' :: '-' :: '-' :: '>' :: ' ' :: (renderTime t2 c2 ++ ('\n' :: S)))) with
    | w1 :: m1 :: m2 :: gt :: w2 :: rest =>
      if isPySpace w1 && m1 = '-' && m2 = '-' && gt = '>' && isPySpace w2 then
        match matchTs rest with
        | none => none
        | some n2 => some (12 + 5 + n2 + wsRunLen (List.drop n2 rest))
      else none
    | _ => none) = some 30
  rw [List.drop_left' (renderTime_length t1 c1)]
  show (if isPySpace ' ' && '-' = '-' && '-' = '-' && '>' = '>' && isPySpace ' ' then
      match matchTs (renderTime t2 c2 ++ ('\n' :: S)) with
      | none => none
      | some n2 => some (12 + 5 + n2 +
          wsRunLen (List.drop n2 (renderTime t2 c2 ++ ('\n' :: S))))
    else none) = some 30
  rw [if_pos (by decide)]
  rw [matchTs_renderTime t2 c2]
  show some (12 + 5 + 12 +
      wsRunLen (List.drop 12 (renderTime t2 c2 ++ ('\n' :: S)))) = some 30
  rw [List.drop_left' (renderTime_length t2 c2)]
  rw [wsRunLen_cons, if_pos (by decide), wsRunLen_eq_zero S hS]

/-- The `\s*\n` segment of the header pattern takes exactly the newline
before a rendered timestamp line, and the whole tail consumes 31
characters. -/
theorem matchWsNlThen_render (t1 t2 : SrtTime) (c1 c2 : Bool) (S : List Char)
    (hS : S.head?.all (fun c => !isPySpace c) = true) :
    matchWsNlThen ('\n' :: (renderTime t1 c1 ++
      (' ' :: '-' :: '-' :: '>' :: ' ' :: (renderTime t2 c2 ++ ('\n' :: S))))) =
      some 31 := by
  unfold matchWsNlThen
  have hcand : wsNlCandidates ('\n' :: (renderTime t1 c1 ++
      (' ' :: '-' :: '-' :: '>' :: ' ' :: (renderTime t2 c2 ++ ('\n' :: S))))) 0 =
      [0] := by
    unfold wsNlCandidates
    rw [if_pos (by decide), if_pos rfl]
    have : renderTime t1 c1 ++
        (' ' :: '-' :: '-' :: '>' :: ' ' :: (renderTime t2 c2 ++ ('\n' :: S))) =
        digitChar (t1.h / 10 % 10) :: (digitChar (t1.h % 10) :: ':' ::
          digitChar (t1.m / 10 % 10) :: digitChar (t1.m % 10) :: ':' ::
          digitChar (t1.s / 10 % 10) :: digitChar (t1.s % 10) ::
          (if c1 then ',' else '.') ::
          digitChar (t1.ms / 100 % 10) :: digitChar (t1.ms / 10 % 10) ::
          digitChar (t1.ms % 10) ::
          (' ' :: '-' :: '-' :: '>' :: ' ' :: (renderTime t2 c2 ++ ('\n' :: S)))) := by
      simp [renderTime]
    rw [this, wsNlCandidates_nonws _ _ _ ((digitChar_prop _).2.1)]
    rfl
  rw [hcand]
  show (match (matchHeaderTail (List.drop 1 ('\n' :: (renderTime t1 c1 ++
      (' ' :: '-' :: '-' :: '>' :: ' ' :: (renderTime t2 c2 ++ ('\n' :: S))))))).map
        (fun m => 0 + 1 + m) with
    | some v => some v
    | none => firstSomeNat _ []) = some 31
  rw [show List.drop 1 ('\n' :: (renderTime t1 c1 ++
      (' ' :: '-' :: '-' :: '>' :: ' ' :: (renderTime t2 c2 ++ ('\n' :: S))))) =
    renderTime t1 c1 ++
      (' ' :: '-' :: '-' :: '>' :: ' ' :: (renderTime t2 c2 ++ ('\n' :: S)))
    from rfl]
  rw [matchHeaderTail_render t1 t2 c1 c2 S hS]
  rfl

/-- The header pattern matches a rendered block header exactly, consuming the
index digits, the newline, the timestamp line and its newline. -/
theorem matchTsHeaderAt_header (i0 : Char) (idxtail : List Char)
    (t1 t2 : SrtTime) (c1 c2 : Bool) (S : List Char)
    (hi0 : i0.isDigit = true) (hidx : ∀ c ∈ idxtail, c.isDigit = true)
    (hS : S.head?.all (fun c => !isPySpace c) = true) :
    matchTsHeaderAt i0 (idxtail ++ ('\n' :: (renderTime t1 c1 ++
      (' ' :: '-' :: '-' :: '>' :: ' ' :: (renderTime t2 c2 ++ ('\n' :: S)))))) =
      some (idxtail.length + 31) := by
  unfold matchTsHeaderAt
  rw [hi0]
  simp only [if_true]
  rw [takeWhile_all_append Char.isDigit idxtail '\n' _ hidx (by decide)]
  rw [List.drop_left]
  rw [matchWsNlThen_render t1 t2 c1 c2 S hS]
  rfl
/-- The head of an append with a nonempty left part. -/
theorem head?_append_left (xs ys : List Char) (h : xs ≠ []) :
    (xs ++ ys).head? = xs.head? := by
  cases xs with
  | nil => exact absurd rfl h
  | cons a as => rfl

/-- Characters of a well-formed rendered dialogue line are non-digit,
non-line-boundary ASCII. -/
theorem renderLine_chars (segs : List SrtSeg) (h : segs.all wfSeg = true) :
    ∀ c ∈ renderLine segs, c.isDigit = false ∧ isLineBoundary c = false ∧
      c.toNat < 128 := by
  intro c hc
  unfold renderLine at hc
  rcases List.mem_flatten.mp hc with ⟨chunk, hchunk, hcchunk⟩
  rcases List.mem_map.mp hchunk with ⟨sg, hsg, rfl⟩
  have hwf : wfSeg sg = true := by
    rw [List.all_eq_true] at h
    exact h sg hsg
  cases sg with
  | text s =>
    unfold wfSeg at hwf
    rw [List.all_eq_true] at hwf
    have := safeTextChar_spec c (hwf c hcchunk)
    exact ⟨this.2.1, this.2.2.1, this.1⟩
  | tag s =>
    unfold wfSeg at hwf
    simp only [Bool.and_eq_true, decide_eq_true_eq] at hwf
    have hs := hwf.2
    rw [List.all_eq_true] at hs
    unfold renderSeg at hcchunk
    rcases List.mem_cons.mp hcchunk with rfl | hc2
    · exact ⟨by decide, by decide, by decide⟩
    · rcases List.mem_append.mp hc2 with hcs | hcgt
      · have := safeTextChar_spec c (hs c hcs)
        exact ⟨this.2.1, this.2.2.1, this.1⟩
      · rw [List.mem_singleton.mp hcgt]
        exact ⟨by decide, by decide, by decide⟩

/-- Characters of a well-formed rendered dialogue part (lines joined by
newlines) are non-digit ASCII. -/
theorem renderDial_chars (b : SrtBlock) (h : b.lines.all wfLine = true) :
    ∀ c ∈ renderDial b, c.isDigit = false ∧ c.toNat < 128 := by
  intro c hc
  unfold renderDial at hc
  rcases mem_joinSep ['\n'] c _ hc with ⟨x, hx, hcx⟩ | hsep
  · rcases List.mem_map.mp hx with ⟨segs, hsegs, rfl⟩
    have hwfl : wfLine segs = true := by
      rw [List.all_eq_true] at h
      exact h segs hsegs
    unfold wfLine at hwfl
    simp only [Bool.and_eq_true] at hwfl
    have := renderLine_chars segs hwfl.1.1.1 c hcx
    exact ⟨this.1, this.2.2⟩
  · rw [List.mem_singleton.mp hsep]
    exact ⟨by decide, by decide⟩

/-- A well-formed rendered dialogue part is nonempty with a non-whitespace
head. -/
theorem renderDial_head (b : SrtBlock) (hne : b.lines ≠ [])
    (h : b.lines.all wfLine = true) :
    renderDial b ≠ [] ∧
    (renderDial b).head?.all (fun c => !isPySpace c) = true := by
  rcases hlines : b.lines with _ | ⟨l1, ls⟩
  · exact absurd hlines hne
  · have hwfl : wfLine l1 = true := by
      rw [List.all_eq_true] at h
      exact h l1 (by rw [hlines]; simp)
    unfold wfLine at hwfl
    simp only [Bool.and_eq_true, decide_eq_true_eq] at hwfl
    have hl1ne : renderLine l1 ≠ [] := hwfl.1.1.2
    unfold renderDial
    rw [hlines]
    constructor
    · exact joinSep_ne_nil ['\n'] (renderLine l1) _ hl1ne
    · rw [List.map_cons, joinSep_head? ['\n'] _ _ hl1ne]
      exact hwfl.1.2
/-- A fully non-digit text passes through the header scanner unchanged. -/
theorem removeHeadersF_pass_nil (xs : List Char) (f : Nat)
    (h : ∀ c ∈ xs, c.isDigit = false) :
    removeHeadersF (xs.length + f) xs = xs := by
  have hp := removeHeadersF_pass xs [] f h
  rw [List.append_nil] at hp
  rw [hp, removeHeadersF_nil, List.append_nil]

/-- The first `re.sub` of `parse_srt` removes exactly the block headers of a
well-formed rendered document, leaving the dialogue parts joined by blank
lines. -/
theorem removeHeadersF_renderSrt (blocks : List SrtBlock) : ∀ f : Nat,
    wfSrt blocks = true →
    removeHeadersF ((renderSrt blocks).length + f) (renderSrt blocks) =
      joinSep ['\n', '\n'] (blocks.map renderDial) := by
  induction blocks with
  | nil =>
    intro f _
    show removeHeadersF (([] : List Char).length + f) [] = []
    rw [removeHeadersF_nil]
  | cons b rest ih =>
    intro f hwf
    have hwfb : wfBlock b = true ∧ wfSrt rest = true := by
      unfold wfSrt at hwf
      rw [List.all_cons, Bool.and_eq_true] at hwf
      exact hwf
    obtain ⟨hwb, hwrest⟩ := hwfb
    unfold wfBlock at hwb
    simp only [Bool.and_eq_true, decide_eq_true_eq] at hwb
    obtain ⟨⟨⟨hidxne, hidxdig⟩, hlinesne⟩, hwlines⟩ := hwb
    have hlne : b.lines ≠ [] := by
      intro hnil
      rw [hnil] at hlinesne
      simp at hlinesne
    rcases hidx : b.index with _ | ⟨i0, idxtail⟩
    · exact absurd hidx hidxne
    have hi0 : i0.isDigit = true := by
      rw [hidx, List.all_cons, Bool.and_eq_true] at hidxdig
      exact hidxdig.1
    have htaildig : ∀ c ∈ idxtail, c.isDigit = true := by
      rw [hidx, List.all_cons, Bool.and_eq_true] at hidxdig
      intro c hc
      rw [List.all_eq_true] at hidxdig
      exact hidxdig.2 c hc
    obtain ⟨hdne, hdhead⟩ := renderDial_head b hlne hwlines
    have hdig := renderDial_chars b hwlines
    have hHlen : (idxtail ++ ('\n' :: (renderTsLine b ++ ['\n']))).length =
        idxtail.length + 31 := by
      simp [renderTsLine, renderTime_length, List.length_append,
        List.length_cons]
    have hmatch : ∀ S : List Char,
        S.head?.all (fun c => !isPySpace c) = true →
        matchTsHeaderAt i0
            ((idxtail ++ ('\n' :: (renderTsLine b ++ ['\n']))) ++ S) =
          some (idxtail ++ ('\n' :: (renderTsLine b ++ ['\n']))).length := by
      intro S hS
      have hshape : (idxtail ++ ('\n' :: (renderTsLine b ++ ['\n']))) ++ S =
          idxtail ++ ('\n' :: (renderTime b.start b.startComma ++
            (' ' :: '-' :: '-' :: '>' :: ' ' ::
              (renderTime b.stop b.stopComma ++ ('\n' :: S))))) := by
        simp [renderTsLine, List.append_assoc, List.cons_append]
      rw [hshape,
        matchTsHeaderAt_header i0 idxtail _ _ _ _ _ hi0 htaildig hS, hHlen]
    cases rest with
    | nil =>
      have hsrt : renderSrt [b] =
          i0 :: ((idxtail ++ ('\n' :: (renderTsLine b ++ ['\n']))) ++
            renderDial b) := by
        simp [renderSrt, joinSep, renderBlock, hidx, List.append_assoc,
          List.cons_append]
      rw [hsrt]
      rw [show (i0 :: ((idxtail ++ ('\n' :: (renderTsLine b ++ ['\n']))) ++
            renderDial b)).length + f =
          (((idxtail ++ ('\n' :: (renderTsLine b ++ ['\n']))) ++
            renderDial b).length + f) + 1 from by
        simp [List.length_cons]; omega]
      rw [removeHeadersF_consume _ i0 _ _ (hmatch (renderDial b) hdhead)]
      rw [show ((idxtail ++ ('\n' :: (renderTsLine b ++ ['\n']))) ++
            renderDial b).length + f =
          (renderDial b).length +
            ((idxtail ++ ('\n' :: (renderTsLine b ++ ['\n']))).length + f)
        from by simp [List.length_append]; omega]
      rw [removeHeadersF_pass_nil (renderDial b) _
        (fun c hc => (hdig c hc).1)]
      rfl
    | cons r rs =>
      have hheadX : (renderDial b ++
          ('\n' :: '\n' :: renderSrt (r :: rs))).head?.all
            (fun c => !isPySpace c) = true := by
        rw [head?_append_left _ _ hdne]
        exact hdhead
      have hsrt : renderSrt (b :: r :: rs) =
          i0 :: ((idxtail ++ ('\n' :: (renderTsLine b ++ ['\n']))) ++
            (renderDial b ++ ('\n' :: '\n' :: renderSrt (r :: rs)))) := by
        show joinSep ['\n', '\n'] (List.map renderBlock (b :: r :: rs)) = _
        rw [List.map_cons, List.map_cons, joinSep_cons₂]
        simp [renderBlock, hidx, renderSrt, List.append_assoc,
          List.cons_append]
      rw [hsrt]
      rw [show (i0 :: ((idxtail ++ ('\n' :: (renderTsLine b ++ ['\n']))) ++
            (renderDial b ++ ('\n' :: '\n' :: renderSrt (r :: rs))))).length + f =
          (((idxtail ++ ('\n' :: (renderTsLine b ++ ['\n']))) ++
            (renderDial b ++ ('\n' :: '\n' :: renderSrt (r :: rs)))).length + f)
            + 1 from by simp [List.length_cons]; omega]
      rw [removeHeadersF_consume _ i0 _ _ (hmatch _ hheadX)]
      rw [show renderDial b ++ ('\n' :: '\n' :: renderSrt (r :: rs)) =
          (renderDial b ++ ['\n', '\n']) ++ renderSrt (r :: rs) from by simp]
      rw [show ((idxtail ++ ('\n' :: (renderTsLine b ++ ['\n']))) ++
            ((renderDial b ++ ['\n', '\n']) ++ renderSrt (r :: rs))).length + f =
          (renderDial b ++ ['\n', '\n']).length +
            ((renderSrt (r :: rs)).length +
              ((idxtail ++ ('\n' :: (renderTsLine b ++ ['\n']))).length + f))
        from by simp [List.length_append]; omega]
      rw [removeHeadersF_pass (renderDial b ++ ['\n', '\n']) _ _ (by
        intro c hc
        rcases List.mem_append.mp hc with hcd | hcs
        · exact (hdig c hcd).1
        · rcases List.mem_cons.mp hcs with rfl | hcs2
          · decide
          · rw [List.mem_singleton.mp hcs2]; decide)]
      rw [ih _ hwrest]
      simp [joinSep_cons₂, List.append_assoc]
/-! ## Strip and tag-removal lemmas -/

/-- `dropWs` is the identity on a list with a non-whitespace head. -/
theorem dropWs_eq_self (cs : List Char)
    (h : cs.head?.all (fun c => !isPySpace c) = true) : dropWs cs = cs := by
  cases cs with
  | nil => rfl
  | cons c cs' =>
    simp only [List.head?_cons, Option.all_some, Bool.not_eq_true'] at h
    unfold dropWs
    rw [if_neg (by rw [h]; simp)]

/-- `str.strip()` is the identity on a text with non-whitespace ends. -/
theorem pyStripL_eq_self (cs : List Char)
    (hh : cs.head?.all (fun c => !isPySpace c) = true)
    (hl : cs.getLast?.all (fun c => !isPySpace c) = true) :
    pyStripL cs = cs := by
  unfold pyStripL
  rw [dropWs_eq_self cs.reverse (by rw [List.head?_reverse]; exact hl)]
  rw [List.reverse_reverse]
  exact dropWs_eq_self cs hh

/-- The rendered dialogue of a well-formed block ends in non-whitespace. -/
theorem renderDial_last (b : SrtBlock) (hne : b.lines ≠ [])
    (h : b.lines.all wfLine = true) :
    (renderDial b).getLast?.all (fun c => !isPySpace c) = true := by
  unfold renderDial
  have hmapne : b.lines.map renderLine ≠ [] := by simp [hne]
  have hallne : ∀ x ∈ b.lines.map renderLine, x ≠ [] := by
    intro x hx
    rcases List.mem_map.mp hx with ⟨segs, hsegs, rfl⟩
    have hwfl : wfLine segs = true := (List.all_eq_true.mp h) segs hsegs
    unfold wfLine at hwfl
    simp only [Bool.and_eq_true, decide_eq_true_eq] at hwfl
    exact hwfl.1.1.2
  rw [joinSep_getLast? ['\n'] (by decide) _ hmapne hallne]
  have hmem : (b.lines.map renderLine).getLast hmapne ∈ b.lines.map renderLine :=
    List.getLast_mem hmapne
  rcases List.mem_map.mp hmem with ⟨segs, hsegs, heq⟩
  rw [← heq]
  have hwfl : wfLine segs = true := (List.all_eq_true.mp h) segs hsegs
  unfold wfLine at hwfl
  simp only [Bool.and_eq_true] at hwfl
  exact hwfl.2

/-- The tag scanner on the empty list. -/
theorem stripTagsF_nil (f : Nat) : stripTagsF f [] = [] := by
  cases f <;> rfl

/-- Unfolding equation for the tag scanner. -/
theorem stripTagsF_cons (f : Nat) (c : Char) (cs : List Char) :
    stripTagsF (f + 1) (c :: cs) =
      if c = '<' then
        match cs.dropWhile (fun d => d ≠ '>') with
        | '>' :: rest2 =>
          if cs.takeWhile (fun d => d ≠ '>') = [] then '<' :: stripTagsF f cs
          else stripTagsF f rest2
        | _ => '<' :: stripTagsF f cs
      else c :: stripTagsF f cs := rfl

/-- The head of a nonempty `dropWhile` result fails the predicate. -/
theorem dropWhile_head_false (p : Char → Bool) :
    ∀ (l : List Char) (d : Char) (r : List Char),
      l.dropWhile p = d :: r → p d = false := by
  intro l
  induction l with
  | nil => intro d r h; exact absurd h (by simp)
  | cons a l ih =>
    intro d r h
    rw [List.dropWhile_cons] at h
    by_cases hp : p a = true
    · rw [if_pos hp] at h
      exact ih d r h
    · rw [if_neg hp] at h
      injection h with h1 _
      rw [← h1]
      exact Bool.eq_false_iff.mpr hp

/-- Tag scan step: ordinary character. -/
theorem stripTagsF_other (f : Nat) (c : Char) (cs : List Char) (hc : ¬ c = '<') :
    stripTagsF (f + 1) (c :: cs) = c :: stripTagsF f cs := by
  rw [stripTagsF_cons, if_neg hc]

/-- Tag scan step: a bracket with no closing bracket ahead is kept. -/
theorem stripTagsF_lt_nil (f : Nat) (cs : List Char)
    (hdw : cs.dropWhile (fun d => d ≠ '>') = []) :
    stripTagsF (f + 1) ('<' :: cs) = '<' :: stripTagsF f cs := by
  rw [stripTagsF_cons, if_pos rfl, hdw]

/-- Tag scan step: an immediately closed bracket pair is kept. -/
theorem stripTagsF_lt_empty (f : Nat) (cs rest2 : List Char)
    (hdw : cs.dropWhile (fun d => d ≠ '>') = '>' :: rest2)
    (ht : cs.takeWhile (fun d => d ≠ '>') = []) :
    stripTagsF (f + 1) ('<' :: cs) = '<' :: stripTagsF f cs := by
  rw [stripTagsF_cons, if_pos rfl, hdw]
  show (if cs.takeWhile (fun d => d ≠ '>') = [] then '<' :: stripTagsF f cs
    else stripTagsF f rest2) = '<' :: stripTagsF f cs
  rw [if_pos ht]

/-- Tag scan step: a nonempty tag is removed. -/
theorem stripTagsF_lt_found (f : Nat) (cs rest2 : List Char)
    (hdw : cs.dropWhile (fun d => d ≠ '>') = '>' :: rest2)
    (ht : ¬ cs.takeWhile (fun d => d ≠ '>') = []) :
    stripTagsF (f + 1) ('<' :: cs) = stripTagsF f rest2 := by
  rw [stripTagsF_cons, if_pos rfl, hdw]
  show (if cs.takeWhile (fun d => d ≠ '>') = [] then '<' :: stripTagsF f cs
    else stripTagsF f rest2) = stripTagsF f rest2
  rw [if_neg ht]

/-- The tag scanner ignores surplus fuel. -/
theorem stripTagsF_irrel : ∀ (f : Nat) (g : Nat) (cs : List Char),
    cs.length ≤ f → cs.length ≤ g → stripTagsF f cs = stripTagsF g cs := by
  intro f
  induction f with
  | zero =>
    intro g cs hf _
    rw [List.length_eq_zero.mp (Nat.le_zero.mp hf), stripTagsF_nil, stripTagsF_nil]
  | succ f ih =>
    intro g cs hf hg
    cases cs with
    | nil => rw [stripTagsF_nil, stripTagsF_nil]
    | cons c cs' =>
      rcases g with _ | g'
      · simp [List.length_cons] at hg
      have hlen : cs'.length ≤ f ∧ cs'.length ≤ g' := by
        simp only [List.length_cons] at hf hg
        omega
      by_cases hc : c = '<'
      · subst hc
        rcases hdw : cs'.dropWhile (fun d => d ≠ '>') with _ | ⟨d, rest2⟩
        · rw [stripTagsF_lt_nil f cs' hdw, stripTagsF_lt_nil g' cs' hdw,
            ih g' cs' hlen.1 hlen.2]
        · have hd : d = '>' := by
            have hh := dropWhile_head_false _ cs' d rest2 hdw
            simpa using hh
          subst hd
          by_cases ht : cs'.takeWhile (fun d => d ≠ '>') = []
          · rw [stripTagsF_lt_empty f cs' rest2 hdw ht,
              stripTagsF_lt_empty g' cs' rest2 hdw ht, ih g' cs' hlen.1 hlen.2]
          · have hr2 : rest2.length ≤ f ∧ rest2.length ≤ g' := by
              have hsub : (cs'.dropWhile (fun d => d ≠ '>')).length ≤ cs'.length :=
                (List.dropWhile_sublist _).length_le
              rw [hdw] at hsub
              simp only [List.length_cons] at hsub
              omega
            rw [stripTagsF_lt_found f cs' rest2 hdw ht,
              stripTagsF_lt_found g' cs' rest2 hdw ht, ih g' rest2 hr2.1 hr2.2]
      · rw [stripTagsF_other f c cs' hc, stripTagsF_other g' c cs' hc,
          ih g' cs' hlen.1 hlen.2]
/-- The tag scanner copies a bracket-free prefix verbatim. -/
theorem stripTagsF_pass (xs : List Char) : ∀ (rest : List Char) (f : Nat),
    (∀ c ∈ xs, ¬ c = '<') → (xs ++ rest).length ≤ f →
    stripTagsF f (xs ++ rest) = xs ++ stripTagsF rest.length rest := by
  induction xs with
  | nil =>
    intro rest f _ hf
    simp only [List.nil_append] at hf ⊢
    exact stripTagsF_irrel f rest.length rest hf le_rfl
  | cons a as ih =>
    intro rest f hno hf
    rcases f with _ | f'
    · simp [List.length_cons] at hf
    rw [List.cons_append, stripTagsF_other f' a (as ++ rest)
      (hno a (List.mem_cons_self a as))]
    rw [ih rest f' (fun c hc => hno c (List.mem_cons_of_mem a hc))
      (by simp only [List.length_cons, List.length_append] at hf ⊢; omega)]
    rfl

/-- The tag scanner removes a complete nonempty tag. -/
theorem stripTagsF_tag (s : List Char) (rest : List Char) (f : Nat)
    (hne : s ≠ []) (hs : ∀ c ∈ s, ¬ c = '>')
    (hf : ('<' :: (s ++ ('>' :: rest))).length ≤ f) :
    stripTagsF f ('<' :: (s ++ ('>' :: rest))) = stripTagsF rest.length rest := by
  rcases f with _ | f'
  · simp [List.length_cons] at hf
  have hdw : (s ++ ('>' :: rest)).dropWhile (fun d => d ≠ '>') = '>' :: rest :=
    dropWhile_all_append _ s '>' rest (fun c hc => by simp [hs c hc]) (by simp)
  have htw : (s ++ ('>' :: rest)).takeWhile (fun d => d ≠ '>') = s :=
    takeWhile_all_append _ s '>' rest (fun c hc => by simp [hs c hc]) (by simp)
  rw [stripTagsF_lt_found f' _ rest hdw (by rw [htw]; exact hne)]
  apply stripTagsF_irrel
  · simp only [List.length_cons, List.length_append] at hf ⊢
    omega
  · exact le_rfl
/-- The tag scanner turns a rendered line into its text, passing the rest on. -/
theorem stripTagsF_line (segs : List SrtSeg) : ∀ (rest : List Char) (f : Nat),
    segs.all wfSeg = true → (renderLine segs ++ rest).length ≤ f →
    stripTagsF f (renderLine segs ++ rest) =
      lineText segs ++ stripTagsF rest.length rest := by
  induction segs with
  | nil =>
    intro rest f _ hf
    simp only [renderLine, lineText, List.map_nil, List.flatten_nil,
      List.nil_append] at hf ⊢
    exact stripTagsF_irrel f rest.length rest hf le_rfl
  | cons sg segs' ih =>
    intro rest f hwf hf
    have hwfsg : wfSeg sg = true := by
      rw [List.all_cons, Bool.and_eq_true] at hwf
      exact hwf.1
    have hwfrest : segs'.all wfSeg = true := by
      rw [List.all_cons, Bool.and_eq_true] at hwf
      exact hwf.2
    cases sg with
    | text s =>
      have hrl : renderLine (SrtSeg.text s :: segs') = s ++ renderLine segs' := by
        simp [renderLine, renderSeg]
      have hlt : lineText (SrtSeg.text s :: segs') = s ++ lineText segs' := by
        simp [lineText]
      rw [hrl] at hf ⊢
      rw [hlt, List.append_assoc]
      rw [List.append_assoc] at hf
      have hno : ∀ c ∈ s, ¬ c = '<' := by
        intro c hc
        have hsafe : safeTextChar c = true := by
          unfold wfSeg at hwfsg
          rw [List.all_eq_true] at hwfsg
          exact hwfsg c hc
        exact (safeTextChar_spec c hsafe).2.2.2.1
      rw [stripTagsF_pass s _ f hno hf]
      rw [ih rest (renderLine segs' ++ rest).length hwfrest le_rfl]
      rw [List.append_assoc]
    | tag s =>
      have hrl : renderLine (SrtSeg.tag s :: segs') =
          '<' :: (s ++ ('>' :: renderLine segs')) := by
        simp [renderLine, renderSeg]
      have hlt : lineText (SrtSeg.tag s :: segs') = lineText segs' := by
        simp [lineText]
      have hsne : s ≠ [] := by
        unfold wfSeg at hwfsg
        rw [Bool.and_eq_true, decide_eq_true_eq] at hwfsg
        exact hwfsg.1
      have hno : ∀ c ∈ s, ¬ c = '>' := by
        intro c hc
        have hsafe : safeTextChar c = true := by
          unfold wfSeg at hwfsg
          rw [Bool.and_eq_true] at hwfsg
          rw [List.all_eq_true] at hwfsg
          exact hwfsg.2 c hc
        exact (safeTextChar_spec c hsafe).2.2.2.2.1
      have hshape : renderLine (SrtSeg.tag s :: segs') ++ rest =
          '<' :: (s ++ ('>' :: (renderLine segs' ++ rest))) := by
        rw [hrl]
        simp [List.append_assoc]
      rw [hshape] at hf ⊢
      rw [hlt]
      rw [stripTagsF_tag s (renderLine segs' ++ rest) f hsne hno hf]
      exact ih rest (renderLine segs' ++ rest).length hwfrest le_rfl
/-- The tag scanner over a sequence of rendered lines joined by newlines. -/
theorem stripTagsF_dial (lines : List (List SrtSeg)) : ∀ (rest : List Char) (f : Nat),
    lines.all wfLine = true →
    (joinSep ['\n'] (lines.map renderLine) ++ rest).length ≤ f →
    stripTagsF f (joinSep ['\n'] (lines.map renderLine) ++ rest) =
      joinSep ['\n'] (lines.map lineText) ++ stripTagsF rest.length rest := by
  induction lines with
  | nil =>
    intro rest f _ hf
    simp only [List.map_nil, joinSep, List.nil_append] at hf ⊢
    exact stripTagsF_irrel f rest.length rest hf le_rfl
  | cons l lines' ih =>
    intro rest f hwf hf
    have hwfl : wfLine l = true := by
      rw [List.all_cons, Bool.and_eq_true] at hwf
      exact hwf.1
    have hwfrest : lines'.all wfLine = true := by
      rw [List.all_cons, Bool.and_eq_true] at hwf
      exact hwf.2
    have hwfsegs : l.all wfSeg = true := by
      unfold wfLine at hwfl
      simp only [Bool.and_eq_true] at hwfl
      exact hwfl.1.1.1
    cases lines' with
    | nil =>
      simp only [List.map_cons, List.map_nil, joinSep] at hf ⊢
      exact stripTagsF_line l rest f hwfsegs hf
    | cons l2 ls =>
      have hJ : joinSep ['\n'] ((l :: l2 :: ls).map renderLine) ++ rest =
          renderLine l ++
            ('\n' :: (joinSep ['\n'] ((l2 :: ls).map renderLine) ++ rest)) := by
        simp [joinSep_cons₂, List.append_assoc]
      rw [hJ] at hf ⊢
      rw [stripTagsF_line l _ f hwfsegs hf]
      have hstep :
          stripTagsF ('\n' :: (joinSep ['\n'] ((l2 :: ls).map renderLine) ++
              rest)).length
            ('\n' :: (joinSep ['\n'] ((l2 :: ls).map renderLine) ++ rest)) =
          '\n' :: (joinSep ['\n'] ((l2 :: ls).map lineText) ++
            stripTagsF rest.length rest) := by
        rw [List.length_cons, stripTagsF_other _ '\n' _ (by decide)]
        rw [ih rest _ hwfrest le_rfl]
      rw [hstep]
      simp [joinSep_cons₂, List.append_assoc]

/-- The tag scanner over the whole header-free document: tags vanish, all
newline structure survives. -/
theorem stripTags_blocks (blocks : List SrtBlock) (hwf : wfSrt blocks = true) :
    stripTags (joinSep ['\n', '\n'] (blocks.map renderDial)) =
      joinSep ['\n', '\n'] (blocks.map
        (fun b => joinSep ['\n'] (b.lines.map lineText))) := by
  unfold stripTags
  induction blocks with
  | nil => rfl
  | cons b blocks' ih =>
    have hwfb : wfBlock b = true := by
      unfold wfSrt at hwf
      rw [List.all_cons, Bool.and_eq_true] at hwf
      exact hwf.1
    have hwfrest : wfSrt blocks' = true := by
      unfold wfSrt at hwf
      rw [List.all_cons, Bool.and_eq_true] at hwf
      exact hwf.2
    have hwflines : b.lines.all wfLine = true := by
      unfold wfBlock at hwfb
      simp only [Bool.and_eq_true] at hwfb
      exact hwfb.2
    cases blocks' with
    | nil =>
      simp only [List.map_cons, List.map_nil, joinSep]
      unfold renderDial
      have hd := stripTagsF_dial b.lines []
        (joinSep ['\n'] (b.lines.map renderLine)).length hwflines (by simp)
      simpa [stripTagsF_nil] using hd
    | cons b2 bs =>
      have hJ : joinSep ['\n', '\n'] ((b :: b2 :: bs).map renderDial) =
          joinSep ['\n'] (b.lines.map renderLine) ++
            ('\n' :: ('\n' ::
              joinSep ['\n', '\n'] ((b2 :: bs).map renderDial))) := by
        unfold renderDial
        simp [joinSep_cons₂, List.append_assoc]
      rw [hJ]
      rw [stripTagsF_dial b.lines _ _ hwflines le_rfl]
      have hstep : ∀ (tail : List Char) (res : List Char),
          stripTagsF tail.length tail = res →
          stripTagsF ('\n' :: ('\n' :: tail)).length ('\n' :: ('\n' :: tail)) =
            '\n' :: ('\n' :: res) := by
        intro tail res hres
        rw [List.length_cons, List.length_cons,
          stripTagsF_other _ '\n' _ (by decide),
          stripTagsF_other _ '\n' _ (by decide), hres]
      rw [hstep _ _ (ih hwfrest)]
      simp [joinSep_cons₂, List.append_assoc]
/-- Lines of a well-formed block: nonempty and all well-formed. -/
theorem wfBlock_lines (b : SrtBlock) (h : wfBlock b = true) :
    b.lines ≠ [] ∧ b.lines.all wfLine = true := by
  unfold wfBlock at h
  simp only [Bool.and_eq_true, Bool.not_eq_true'] at h
  refine ⟨?_, h.2⟩
  intro hnil
  rw [hnil] at h
  exact absurd h.1.2 (by decide)

/-- `str.strip()` leaves the header-free rendered document untouched: it
begins with a dialogue character and ends with one. -/
theorem dialogues_strip_id (blocks : List SrtBlock) (hwf : wfSrt blocks = true) :
    pyStripL (joinSep ['\n', '\n'] (blocks.map renderDial)) =
      joinSep ['\n', '\n'] (blocks.map renderDial) := by
  cases blocks with
  | nil => rfl
  | cons b bs =>
    have hwfall : ∀ b' ∈ b :: bs, wfBlock b' = true := by
      intro b' hb'
      unfold wfSrt at hwf
      rw [List.all_eq_true] at hwf
      exact hwf b' hb'
    have hallne : ∀ x ∈ (b :: bs).map renderDial, x ≠ [] := by
      intro x hx
      rcases List.mem_map.mp hx with ⟨b', hb', rfl⟩
      have hl := wfBlock_lines b' (hwfall b' hb')
      exact (renderDial_head b' hl.1 hl.2).1
    have hmapne : (b :: bs).map renderDial ≠ [] := by simp
    apply pyStripL_eq_self
    · have hbl := wfBlock_lines b (hwfall b (List.mem_cons_self b bs))
      rw [List.map_cons,
        joinSep_head? ['\n', '\n'] (renderDial b) (bs.map renderDial)
          (renderDial_head b hbl.1 hbl.2).1]
      exact (renderDial_head b hbl.1 hbl.2).2
    · rw [joinSep_getLast? ['\n', '\n'] (by decide) _ hmapne hallne]
      have hmem : ((b :: bs).map renderDial).getLast hmapne ∈
          (b :: bs).map renderDial := List.getLast_mem hmapne
      rcases List.mem_map.mp hmem with ⟨b', hb', heq⟩
      rw [← heq]
      have hl := wfBlock_lines b' (hwfall b' hb')
      exact renderDial_last b' hl.1 hl.2
/-- The split worker on exhausted input. -/
theorem pySplitGoF_nil (f : Nat) (acc : List Char) :
    pySplitGoF f acc [] = if acc = [] then [] else [acc.reverse] := by
  cases f <;> rfl

/-- Unfolding equation for the split worker. -/
theorem pySplitGoF_cons (f : Nat) (acc : List Char) (c : Char) (cs : List Char) :
    pySplitGoF (f + 1) acc (c :: cs) =
      if c = '\r' then
        acc.reverse ::
          pySplitGoF f [] (if cs.head? = some '\n' then cs.tail else cs)
      else if isLineBoundary c then acc.reverse :: pySplitGoF f [] cs
      else pySplitGoF f (c :: acc) cs := rfl

/-- The split worker accumulates a boundary-free prefix. -/
theorem pySplitGoF_chunk (xs : List Char) : ∀ (acc rest : List Char) (f : Nat),
    (∀ c ∈ xs, isLineBoundary c = false) →
    pySplitGoF (xs.length + f) acc (xs ++ rest) =
      pySplitGoF f (xs.reverse ++ acc) rest := by
  induction xs with
  | nil => intro acc rest f _; simp
  | cons c cs ih =>
    intro acc rest f hbf
    have hc : isLineBoundary c = false := hbf c (List.mem_cons_self c cs)
    have hcr : ¬ c = '\r' := by
      intro hcr
      rw [hcr] at hc
      exact absurd hc (by decide)
    rw [show (c :: cs).length + f = (cs.length + f) + 1 from by
      simp [List.length_cons]; omega]
    rw [List.cons_append, pySplitGoF_cons, if_neg hcr, if_neg (by rw [hc]; simp)]
    rw [ih (c :: acc) rest f (fun d hd => hbf d (List.mem_cons_of_mem c hd))]
    simp

/-- The split worker at a newline boundary. -/
theorem pySplitGoF_nl (f : Nat) (acc : List Char) (cs : List Char) :
    pySplitGoF (f + 1) acc ('\n' :: cs) =
      acc.reverse :: pySplitGoF f [] cs := by
  rw [pySplitGoF_cons, if_neg (by decide), if_pos (by decide)]

/-- The split worker on a newline-join of boundary-free lines. -/
theorem pySplitGoF_join (ls2 : List (List Char)) : ∀ (l acc : List Char),
    (∀ l' ∈ l :: ls2, ∀ c ∈ l', isLineBoundary c = false) →
    pySplitGoF (joinSep ['\n'] (l :: ls2)).length acc (joinSep ['\n'] (l :: ls2)) =
      splitModel ((acc.reverse ++ l) :: ls2) := by
  induction ls2 with
  | nil =>
    intro l acc hbf
    have hl : ∀ c ∈ l, isLineBoundary c = false :=
      hbf l (List.mem_cons_self l [])
    have h1 : joinSep ['\n'] [l] = l := rfl
    have hch := pySplitGoF_chunk l acc [] 0 hl
    simp only [List.append_nil, Nat.add_zero] at hch
    rw [h1, hch, pySplitGoF_nil]
    show _ = splitModel [acc.reverse ++ l]
    unfold splitModel
    by_cases hnil : l.reverse ++ acc = []
    · rw [if_pos hnil]
      simp only [List.append_eq_nil, List.reverse_eq_nil_iff] at hnil
      rw [if_pos (by simp [hnil.1, hnil.2])]
    · rw [if_neg hnil]
      rw [if_neg (by
        intro hq
        simp only [List.append_eq_nil, List.reverse_eq_nil_iff] at hq
        exact hnil (by simp [hq.1, hq.2]))]
      simp
  | cons l2 ls ih =>
    intro l acc hbf
    have hl : ∀ c ∈ l, isLineBoundary c = false :=
      hbf l (List.mem_cons_self l (l2 :: ls))
    have hbf2 : ∀ l' ∈ l2 :: ls, ∀ c ∈ l', isLineBoundary c = false :=
      fun l' hl' => hbf l' (List.mem_cons_of_mem l hl')
    have hJ : joinSep ['\n'] (l :: l2 :: ls) =
        l ++ ('\n' :: joinSep ['\n'] (l2 :: ls)) := by
      rw [joinSep_cons₂]
      rfl
    rw [hJ]
    rw [show (l ++ ('\n' :: joinSep ['\n'] (l2 :: ls))).length =
        l.length + ((joinSep ['\n'] (l2 :: ls)).length + 1) from by
      simp [List.length_append, List.length_cons]]
    rw [pySplitGoF_chunk l acc ('\n' :: joinSep ['\n'] (l2 :: ls)) _ hl]
    rw [pySplitGoF_nl]
    rw [ih l2 [] hbf2]
    rw [show splitModel ((acc.reverse ++ l) :: l2 :: ls) =
      (acc.reverse ++ l) :: splitModel (l2 :: ls) from rfl]
    simp
/-- `splitlines` on a newline-join of boundary-free lines is `splitModel`. -/
theorem pySplitlinesL_join (l : List Char) (ls2 : List (List Char))
    (hbf : ∀ l' ∈ l :: ls2, ∀ c ∈ l', isLineBoundary c = false) :
    pySplitlinesL (joinSep ['\n'] (l :: ls2)) = splitModel (l :: ls2) := by
  unfold pySplitlinesL
  rw [pySplitGoF_join ls2 l [] hbf]
  simp

/-- Stripping the empty line drops it. -/
theorem stripDrop_nil : stripDrop [] = none := rfl

/-- `filterMap` does not see the trailing-empty-line drop of `splitlines`. -/
theorem filterMap_splitModel (ls : List (List Char)) :
    (splitModel ls).filterMap stripDrop = ls.filterMap stripDrop := by
  induction ls with
  | nil => rfl
  | cons l ls' ih =>
    cases ls' with
    | nil =>
      rw [show splitModel [l] = if l = [] then [] else [l] from rfl]
      by_cases hl : l = []
      · rw [if_pos hl, hl]
        simp [List.filterMap_cons, stripDrop_nil]
      · rw [if_neg hl]
    | cons l2 ls2 =>
      rw [show splitModel (l :: l2 :: ls2) = l :: splitModel (l2 :: ls2) from rfl]
      rw [List.filterMap_cons, List.filterMap_cons, ih]

/-- Joining a concatenation of nonempty line groups. -/
theorem joinSep_append (sep : List Char) :
    ∀ (A B : List (List Char)), A ≠ [] → B ≠ [] →
      joinSep sep (A ++ B) = joinSep sep A ++ (sep ++ joinSep sep B) := by
  intro A
  induction A with
  | nil => intro B hA _; exact absurd rfl hA
  | cons a A' ih =>
    intro B hA hB
    cases A' with
    | nil =>
      cases B with
      | nil => exact absurd rfl hB
      | cons b B' =>
        rw [show ([a] ++ b :: B') = a :: b :: B' from rfl, joinSep_cons₂]
        rfl
    | cons a2 A2 =>
      rw [show ((a :: a2 :: A2) ++ B) = a :: ((a2 :: A2) ++ B) from rfl]
      rw [show (a :: ((a2 :: A2) ++ B)) = a :: (a2 :: (A2 ++ B)) from rfl]
      rw [joinSep_cons₂]
      rw [show (a2 :: (A2 ++ B)) = (a2 :: A2) ++ B from rfl]
      rw [ih B (by simp) hB, joinSep_cons₂]
      simp [List.append_assoc]

/-- The interleaved line list is nonempty when the first group is. -/
theorem interEmpty_ne_nil (L : List (List Char)) (Ls : List (List (List Char)))
    (hL : L ≠ []) : interEmpty (L :: Ls) ≠ [] := by
  cases Ls with
  | nil => exact hL
  | cons L2 Ls' =>
    rw [show interEmpty (L :: L2 :: Ls') = L ++ ([] :: interEmpty (L2 :: Ls'))
      from rfl]
    simp

/-- Every interleaved line is empty or one of the group lines. -/
theorem interEmpty_mem : ∀ (Ls : List (List (List Char))) (x : List Char),
    x ∈ interEmpty Ls → x = [] ∨ ∃ L ∈ Ls, x ∈ L := by
  intro Ls
  induction Ls with
  | nil => intro x hx; exact absurd hx (by simp [interEmpty])
  | cons L Ls' ih =>
    intro x hx
    cases Ls' with
    | nil =>
      right
      exact ⟨L, List.mem_cons_self L [], hx⟩
    | cons L2 Ls2 =>
      rw [show interEmpty (L :: L2 :: Ls2) = L ++ ([] :: interEmpty (L2 :: Ls2))
        from rfl] at hx
      rcases List.mem_append.mp hx with hxL | hxR
      · right; exact ⟨L, List.mem_cons_self L _, hxL⟩
      · rcases List.mem_cons.mp hxR with hxe | hxI
        · left; exact hxe
        · rcases ih x hxI with hxe | ⟨L', hL', hxL'⟩
          · left; exact hxe
          · right; exact ⟨L', List.mem_cons_of_mem L hL', hxL'⟩

/-- The newline-join of the interleaved lines is the double-newline join of
the per-group joins. -/
theorem joinSep_interEmpty : ∀ (Ls : List (List (List Char))),
    (∀ L ∈ Ls, L ≠ []) →
    joinSep ['\n'] (interEmpty Ls) =
      joinSep ['\n', '\n'] (Ls.map (joinSep ['\n'])) := by
  intro Ls
  induction Ls with
  | nil => intro _; rfl
  | cons L Ls' ih =>
    intro hne
    cases Ls' with
    | nil => rfl
    | cons L2 Ls2 =>
      have hL : L ≠ [] := hne L (List.mem_cons_self L _)
      have hne2 : ∀ L' ∈ L2 :: Ls2, L' ≠ [] :=
        fun L' hL' => hne L' (List.mem_cons_of_mem L hL')
      rw [show interEmpty (L :: L2 :: Ls2) = L ++ ([] :: interEmpty (L2 :: Ls2))
        from rfl]
      rw [joinSep_append ['\n'] L ([] :: interEmpty (L2 :: Ls2)) hL (by simp)]
      have hIE : interEmpty (L2 :: Ls2) ≠ [] :=
        interEmpty_ne_nil L2 Ls2 (hne2 L2 (List.mem_cons_self L2 _))
      rcases hIEr : interEmpty (L2 :: Ls2) with _ | ⟨r, R⟩
      · exact absurd hIEr hIE
      rw [joinSep_cons₂]
      rw [← hIEr, ih hne2]
      simp [joinSep_cons₂, List.append_assoc]

/-- `filterMap` over the interleaved lines ignores the separators. -/
theorem filterMap_interEmpty : ∀ (Ls : List (List (List Char))),
    (interEmpty Ls).filterMap stripDrop = Ls.flatten.filterMap stripDrop := by
  intro Ls
  induction Ls with
  | nil => rfl
  | cons L Ls' ih =>
    cases Ls' with
    | nil => simp [interEmpty]
    | cons L2 Ls2 =>
      rw [show interEmpty (L :: L2 :: Ls2) = L ++ ([] :: interEmpty (L2 :: Ls2))
        from rfl]
      rw [List.filterMap_append, List.filterMap_cons, stripDrop_nil]
      rw [ih]
      rw [show (L :: L2 :: Ls2).flatten = L ++ (L2 :: Ls2).flatten from rfl]
      rw [List.filterMap_append]
/-- The dialogue join written with the named per-line action. -/
theorem joinDialogue_eq (cs : List Char) :
    joinDialogue cs =
      joinSep [' '] ((pySplitlinesL cs).filterMap stripDrop) := rfl

/-- The predicted dialogue written with the named per-line action. -/
theorem expectedDialogue_eq (blocks : List SrtBlock) :
    expectedDialogue blocks =
      joinSep [' '] (((blocks.map SrtBlock.lines).flatten).filterMap
        (fun segs => stripDrop (lineText segs))) := rfl

/-- Characters of a line's text are safe. -/
theorem lineText_chars (segs : List SrtSeg) (h : segs.all wfSeg = true) :
    ∀ c ∈ lineText segs, safeTextChar c = true := by
  intro c hc
  unfold lineText at hc
  rcases List.mem_flatten.mp hc with ⟨chunk, hchunk, hcchunk⟩
  rcases List.mem_map.mp hchunk with ⟨sg, hsg, rfl⟩
  have hwf : wfSeg sg = true := by
    rw [List.all_eq_true] at h
    exact h sg hsg
  cases sg with
  | text s =>
    unfold wfSeg at hwf
    rw [List.all_eq_true] at hwf
    exact hwf c hcchunk
  | tag s => exact absurd hcchunk (by simp)

/-- Flattening block lines commutes with taking line texts. -/
theorem flatten_map_lineText (blocks : List SrtBlock) :
    (blocks.map (fun b => b.lines.map lineText)).flatten =
      ((blocks.map SrtBlock.lines).flatten).map lineText := by
  induction blocks with
  | nil => rfl
  | cons b bs ih => simp [ih]

/-- `splitlines` plus strip-filter-join on the tag-free document equals the
predicted dialogue. -/
theorem joinDialogue_blocks (blocks : List SrtBlock) (hwf : wfSrt blocks = true) :
    joinDialogue (joinSep ['\n', '\n'] (blocks.map
      (fun b => joinSep ['\n'] (b.lines.map lineText)))) =
      expectedDialogue blocks := by
  cases blocks with
  | nil => rfl
  | cons b bs =>
    have hwfall : ∀ b' ∈ b :: bs, wfBlock b' = true := by
      intro b' hb'
      unfold wfSrt at hwf
      rw [List.all_eq_true] at hwf
      exact hwf b' hb'
    have hLne : ∀ L ∈ (b :: bs).map (fun b => b.lines.map lineText), L ≠ [] := by
      intro L hL
      rcases List.mem_map.mp hL with ⟨b', hb', rfl⟩
      have hl := (wfBlock_lines b' (hwfall b' hb')).1
      simp [hl]
    have hT : joinSep ['\n', '\n'] ((b :: bs).map
        (fun b => joinSep ['\n'] (b.lines.map lineText))) =
        joinSep ['\n'] (interEmpty ((b :: bs).map
          (fun b => b.lines.map lineText))) := by
      rw [joinSep_interEmpty _ hLne]
      rw [List.map_map]
      rfl
    have hbf : ∀ l' ∈ interEmpty ((b :: bs).map (fun b => b.lines.map lineText)),
        ∀ c ∈ l', isLineBoundary c = false := by
      intro l' hl' c hc
      rcases interEmpty_mem _ l' hl' with rfl | ⟨L, hL, hl'L⟩
      · exact absurd hc (by simp)
      · rcases List.mem_map.mp hL with ⟨b', hb', rfl⟩
        rcases List.mem_map.mp hl'L with ⟨segs, hsegs, rfl⟩
        have hwflall := (wfBlock_lines b' (hwfall b' hb')).2
        rw [List.all_eq_true] at hwflall
        have hwfl := hwflall segs hsegs
        unfold wfLine at hwfl
        simp only [Bool.and_eq_true] at hwfl
        have hsafe := lineText_chars segs hwfl.1.1.1 c hc
        exact (safeTextChar_spec c hsafe).2.2.1
    have hIEne : interEmpty ((b :: bs).map (fun b => b.lines.map lineText)) ≠ [] := by
      rw [List.map_cons]
      apply interEmpty_ne_nil
      have hl := (wfBlock_lines b (hwfall b (List.mem_cons_self b bs))).1
      simp [hl]
    rcases hIEr : interEmpty ((b :: bs).map (fun b => b.lines.map lineText))
      with _ | ⟨l0, ls0⟩
    · exact absurd hIEr hIEne
    rw [hIEr] at hbf
    rw [hT, hIEr, joinDialogue_eq]
    rw [pySplitlinesL_join l0 ls0 hbf]
    rw [filterMap_splitModel]
    rw [← hIEr, filterMap_interEmpty]
    rw [flatten_map_lineText]
    rw [List.filterMap_map]
    rw [expectedDialogue_eq]
    rfl
/-- Rendered timestamps are ASCII. -/
theorem renderTime_ascii (t : SrtTime) (comma : Bool) :
    ∀ c ∈ renderTime t comma, c.toNat < 128 := by
  intro c hc
  simp only [renderTime, List.mem_cons, List.mem_nil_iff, or_false] at hc
  rcases hc with rfl|rfl|rfl|rfl|rfl|rfl|rfl|rfl|rfl|rfl|rfl|rfl
  all_goals first
    | exact (digitChar_prop _).2.2.1
    | decide
    | (cases comma <;> decide)

/-- The rendered timestamp line is ASCII. -/
theorem renderTsLine_ascii (b : SrtBlock) :
    ∀ c ∈ renderTsLine b, c.toNat < 128 := by
  intro c hc
  unfold renderTsLine at hc
  rcases List.mem_append.mp hc with h1 | h2
  · exact renderTime_ascii b.start b.startComma c h1
  · simp only [List.mem_cons] at h2
    rcases h2 with rfl|rfl|rfl|rfl|rfl|h3
    · decide
    · decide
    · decide
    · decide
    · decide
    · exact renderTime_ascii b.stop b.stopComma c h3

/-- A well-formed rendered document is ASCII. -/
theorem renderSrt_ascii (blocks : List SrtBlock) (hwf : wfSrt blocks = true) :
    ∀ c ∈ renderSrt blocks, c.toNat < 128 := by
  intro c hc
  unfold renderSrt at hc
  rcases mem_joinSep ['\n', '\n'] c _ hc with ⟨x, hx, hcx⟩ | hsep
  · rcases List.mem_map.mp hx with ⟨b', hb', rfl⟩
    have hwfb : wfBlock b' = true := by
      unfold wfSrt at hwf
      rw [List.all_eq_true] at hwf
      exact hwf b' hb'
    unfold renderBlock at hcx
    rcases List.mem_append.mp hcx with hidx | hrest
    · have hdig : b'.index.all Char.isDigit = true := by
        unfold wfBlock at hwfb
        simp only [Bool.and_eq_true] at hwfb
        exact hwfb.1.1.2
      rw [List.all_eq_true] at hdig
      exact (isDigit_spec c (hdig c hidx)).2.1
    · rcases List.mem_cons.mp hrest with rfl | hrest2
      · decide
      rcases List.mem_append.mp hrest2 with hts | hrest3
      · exact renderTsLine_ascii b' c hts
      rcases List.mem_cons.mp hrest3 with rfl | hdial
      · decide
      have hwflines : b'.lines.all wfLine = true := by
        unfold wfBlock at hwfb
        simp only [Bool.and_eq_true] at hwfb
        exact hwfb.2
      exact (renderDial_chars b' hwflines c hdial).2
  · simp only [List.mem_cons, List.mem_nil_iff, or_false] at hsep
    rcases hsep with rfl | rfl <;> decide

/-- The UTF-8 encoding of an ASCII character is its single code point. -/
theorem utf8EncodeChar_ascii (c : Char) (h : c.toNat < 128) :
    utf8EncodeChar c = [c.toNat] := by
  simp only [utf8EncodeChar]
  rw [if_pos h]

/-- The decoder consumes one ASCII byte. -/
theorem utf8DecodeIgnoreF_ascii (f : Nat) (b : Nat) (rest : List Nat)
    (hb : b < 128) :
    utf8DecodeIgnoreF (f + 1) (b :: rest) =
      Char.ofNat b :: utf8DecodeIgnoreF f rest := by
  rw [utf8DecodeIgnoreF.eq_def]
  exact if_pos hb

/-- Decoding is a left inverse of encoding on ASCII text. -/
theorem utf8_roundtrip_ascii : ∀ (cs : List Char), (∀ c ∈ cs, c.toNat < 128) →
    utf8DecodeIgnoreL (utf8EncodeL cs) = cs := by
  intro cs
  induction cs with
  | nil => intro _; rfl
  | cons c cs' ih =>
    intro h
    have hc : c.toNat < 128 := h c (List.mem_cons_self c cs')
    have henc : utf8EncodeL (c :: cs') = c.toNat :: utf8EncodeL cs' := by
      unfold utf8EncodeL
      rw [List.flatMap_cons, utf8EncodeChar_ascii c hc]
      rfl
    unfold utf8DecodeIgnoreL
    rw [henc]
    rw [show (c.toNat :: utf8EncodeL cs').length = (utf8EncodeL cs').length + 1
      from by simp]
    rw [utf8DecodeIgnoreF_ascii _ _ _ hc, Char.ofNat_toNat]
    have ih2 := ih (fun d hd => h d (List.mem_cons_of_mem c hd))
    unfold utf8DecodeIgnoreL at ih2
    rw [ih2]
/-- C8: on well-formed subtitle documents — blocks made of a decimal index
line, a timestamp line `HH:MM:SS[,.]mmm --> HH:MM:SS[,.]mmm` accepting comma
or period on each side, and nonempty dialogue lines whose text and tag
interiors avoid digits, line boundaries and angle brackets — the normalizer
removes exactly the block headers, strips the angle-bracket tags keeping the
enclosed text, trims every line, drops the lines left empty and the
blank separator lines, and joins the rest with single spaces in original
order: `parse_srt` of the rendered document is exactly the predicted
dialogue, with no reordering or deduplication. -/
theorem claim_C8_normalizer_dialogue (blocks : List SrtBlock)
    (hwf : wfSrt blocks = true) :
    parse_srt (utf8EncodeL (renderSrt blocks)) =
      some (String.mk (expectedDialogue blocks)) := by
  unfold parse_srt parse_srt_core
  rw [utf8_roundtrip_ascii (renderSrt blocks) (renderSrt_ascii blocks hwf)]
  have hrh : removeHeaders (renderSrt blocks) =
      joinSep ['\n', '\n'] (blocks.map renderDial) := by
    unfold removeHeaders
    have h0 := removeHeadersF_renderSrt blocks 0 hwf
    rw [Nat.add_zero] at h0
    exact h0
  rw [hrh, dialogues_strip_id blocks hwf, stripTags_blocks blocks hwf,
    joinDialogue_blocks blocks hwf]

/-- Witness for C8: a concrete two-block document, the first block with comma
sub-second separators and an italics tag pair, the second with period
separators and two dialogue lines; the normalizer yields exactly the joined
dialogue text. -/
theorem claim_C8_normalizer_dialogue_witness :
    wfSrt [⟨"1".data, ⟨0, 0, 1, 0⟩, true, ⟨0, 0, 2, 500⟩, true,
        [[SrtSeg.tag "i".data, SrtSeg.text "Hi there".data,
          SrtSeg.tag "/i".data]]⟩,
      ⟨"2".data, ⟨0, 0, 3, 0⟩, false, ⟨0, 0, 4, 0⟩, false,
        [[SrtSeg.text "Ok".data], [SrtSeg.text "Bye".data]]⟩] = true ∧
    expectedDialogue [⟨"1".data, ⟨0, 0, 1, 0⟩, true, ⟨0, 0, 2, 500⟩, true,
        [[SrtSeg.tag "i".data, SrtSeg.text "Hi there".data,
          SrtSeg.tag "/i".data]]⟩,
      ⟨"2".data, ⟨0, 0, 3, 0⟩, false, ⟨0, 0, 4, 0⟩, false,
        [[SrtSeg.text "Ok".data], [SrtSeg.text "Bye".data]]⟩] = "Hi there Ok Bye".data ∧
    parse_srt (utf8EncodeL (renderSrt [⟨"1".data, ⟨0, 0, 1, 0⟩, true, ⟨0, 0, 2, 500⟩, true,
        [[SrtSeg.tag "i".data, SrtSeg.text "Hi there".data,
          SrtSeg.tag "/i".data]]⟩,
      ⟨"2".data, ⟨0, 0, 3, 0⟩, false, ⟨0, 0, 4, 0⟩, false,
        [[SrtSeg.text "Ok".data], [SrtSeg.text "Bye".data]]⟩])) =
      some (String.mk (expectedDialogue [⟨"1".data, ⟨0, 0, 1, 0⟩, true, ⟨0, 0, 2, 500⟩, true,
        [[SrtSeg.tag "i".data, SrtSeg.text "Hi there".data,
          SrtSeg.tag "/i".data]]⟩,
      ⟨"2".data, ⟨0, 0, 3, 0⟩, false, ⟨0, 0, 4, 0⟩, false,
        [[SrtSeg.text "Ok".data], [SrtSeg.text "Bye".data]]⟩])) :=
  ⟨by decide, by decide, claim_C8_normalizer_dialogue _ (by decide)⟩

end ViralShorts
